import Mathlib

/-!
Verification development for `anime2sd/folder_manipulation.py`.

The file embeds the module's four functions — `save_characters_to_meta`
(the Label Synchronizer), `resize_image`, `save_image_and_meta` and
`resize_character_images` (the Export Pipeline) — as executable Lean
definitions, and proves the spec's testable properties about them.

Modelling conventions:
* A metadata JSON document is a `MetaRecord` holding the three fields the
  module reads or writes (`path`, `filename`, `characters`); `characters`
  absent is modelled as the empty list (the code treats absent and empty
  alike in every branch it takes, and every write it performs stores a
  list).
* The on-disk metadata store is a function from image path to
  `Option MetaRecord`; the external path-derived naming function
  `get_corr_meta_names` (from `anime2sd.basics`, out of scope per the spec,
  a pure deterministic reversible map `ImagePath → MetadataPath`) is folded
  into the store key, so `store p` is "load the metadata record of image
  `p` if its metadata file exists".
* `cv2` is the external opaque codec/resize collaborator.  `cv2.imread`
  is a function from path to `Option Image` (`None` on failure);
  `cv2.resize` with `INTER_AREA` is modelled with OpenCV's documented
  output geometry (each output side is the input side times the scale
  factor, rounded to the nearest integer) and a pixel-sampling content
  that is the identity at unit scale, matching OpenCV's behaviour of
  copying pixels when the area filter runs at scale 1.
* Python exceptions are modelled by returning `State × Option Err`: the
  state already mutated when the exception fires is kept, `some e` aborts
  the enclosing loop (`runList` below).
-/

/-- A metadata JSON document, restricted to the fields the module touches.
`path := none` models a record without a `'path'` key, and
`characters := []` models a record whose `'characters'` key is absent or
empty. -/
structure MetaRecord where
  path : Option String
  filename : String
  characters : List String
deriving DecidableEq, Repr

/-- An in-memory decoded image (a numpy array as produced by `cv2.imread`):
its shape `(height, width, channels)` plus a pixel accessor. -/
structure Image where
  height : Nat
  width : Nat
  channels : Nat
  pix : Nat → Nat → Nat → Nat

/-- Total element count of the underlying numpy array (`ndarray.size`),
as used by the crop-area filter in `resize_character_images`. -/
def Image.size (img : Image) : Nat :=
  img.height * img.width * img.channels

/-- The Python exceptions the module can raise: the two
`ValueError('…metadata…')` sites (the spec's `MissingMetadataError`), the
unguarded `meta_data['path']` lookup (`KeyError`), and attribute access on
a failed `cv2.imread` result (`AttributeError`). -/
inductive Err where
  | missingMetadata
  | keyError
  | attributeError
deriving DecidableEq, Repr

/-- A store of metadata records keyed by the image path they describe
(the path-derived metadata naming is folded into the key). -/
def Store := String → Option MetaRecord

/-- Point update of a store-like map. -/
def upd {α : Type} (f : String → Option α) (k : String) (v : α) :
    String → Option α :=
  fun p => if p = k then some v else f p

/-- Sequential processing of a work list where each item may mutate state
and may raise: on the first raised error the loop stops, keeping the state
reached so far.  This is the semantics of a Python `for` body that can
`raise`. -/
def runList {α σ : Type} (f : α → σ → σ × Option Err) :
    List α → σ → σ × Option Err
  | [], st => (st, none)
  | x :: xs, st =>
    match f x st with
    | (st', none) => runList f xs st'
    | (st', some e) => (st', some e)

/-! ### Python string and path primitives used by the module -/

/-- Auxiliary scan for `splitext`: position where the extension starts
(the last `'.'` that has some non-dot character before it), mirroring
CPython `os.path.splitext` on a bare file name. -/
def splitextIdx : List Char → Nat → Bool → Option Nat → Option Nat
  | [], _, _, acc => acc
  | c :: rest, i, sawNonDot, acc =>
    if c = '.' then
      splitextIdx rest (i + 1) sawNonDot (if sawNonDot then some i else acc)
    else
      splitextIdx rest (i + 1) true acc

/-- Python `os.path.splitext` on a bare file name: splits off the suffix
starting at the last dot, unless every character before that dot is a dot
(so `".hidden"` keeps its leading dot in the root). -/
def splitext (s : String) : String × String :=
  match splitextIdx s.data 0 false none with
  | some i => (⟨s.data.take i⟩, ⟨s.data.drop i⟩)
  | none => (s, "")

/-- Python `str.split(sep)` for a one-character separator: split at every
occurrence, keeping empty components (so `"".split(sep) == ['']`). -/
def splitOnChar (sep : Char) : List Char → List (List Char)
  | [] => [[]]
  | c :: rest =>
    match splitOnChar sep rest with
    | h :: t => if c = sep then [] :: h :: t else (c :: h) :: t
    | [] => if c = sep then [[], []] else [[c]]

/-- Python `sep.join(parts)` for a one-character separator. -/
def joinWith (sep : Char) : List (List Char) → List Char
  | [] => []
  | [x] => x
  | x :: y :: xs => x ++ sep :: joinWith sep (y :: xs)

/-- Python `os.path.basename`: the part after the last `'/'`. -/
def basename (p : String) : String :=
  ⟨(splitOnChar '/' p.data).getLastD []⟩

/-- Python `str.startswith`. -/
def pyStartsWith (s pre : String) : Bool :=
  s.data.take pre.data.length = pre.data

/-- Python `str.lower` (over the ASCII names the module sees). -/
def lowerStr (s : String) : String :=
  ⟨s.data.map Char.toLower⟩

/-- The image-extension filter of the Synchronizer's file loop:
`os.path.splitext(f)[1].lower() in ['.png', '.jpg', '.jpeg', '.webp', '.gif']`
(the extension list is declared below; the check is by case-insensitive
membership). -/
def isImageFile (exts : List String) (f : String) : Bool :=
  decide (lowerStr (splitext f).2 ∈ exts)

/-- Python `os.path.join` for the relative-second-argument case the module
always is in. -/
def pathJoin (a b : String) : String := a ++ "/" ++ b

/-- Python `str.replace`: replace every non-overlapping occurrence of
`pat`, scanning left to right.  The `Nat` argument is recursion fuel;
any fuel of at least the subject's length (as supplied by `pyReplace`)
yields Python's semantics. -/
def replaceAll (pat rep : List Char) : Nat → List Char → List Char
  | _, [] => []
  | 0, s => s
  | fuel + 1, c :: rest =>
    if 0 < pat.length ∧ (c :: rest).take pat.length = pat then
      rep ++ replaceAll pat rep fuel ((c :: rest).drop pat.length)
    else
      c :: replaceAll pat rep fuel rest

/-- String-level wrapper of `replaceAll` (Python `s.replace(pat, rep)`). -/
def pyReplace (s pat rep : String) : String :=
  ⟨replaceAll pat.data rep.data s.data.length s.data⟩

/-- Suffix predicate on strings (Python `str.endswith`). -/
def endsIn (s t : String) : Prop := t.data <:+ s.data

instance (s t : String) : Decidable (endsIn s t) := by
  unfold endsIn
  infer_instance

/-! ### The Label Synchronizer (`save_characters_to_meta`) -/

/-- The recognized image extensions (`save_characters_to_meta`, line 39). -/
def imageExts : List String := [".png", ".jpg", ".jpeg", ".webp", ".gif"]

/-- Character name derived from a crop folder name:
`'_'.join(folder_name.split('_')[1:])`. -/
def folderCharName (name : String) : String :=
  ⟨joinWith '_' ((splitOnChar '_' name.data).drop 1)⟩

/-- One entry of `os.listdir(crop_dir)`: its name, whether it is a
directory, and (when a directory) the `os.listdir` of its files. -/
structure CropEntry where
  name : String
  isDir : Bool
  files : List String
deriving DecidableEq, Repr

/-- The mutable state of a Synchronizer run: the metadata store plus the
run-scoped `encountered_paths` set. -/
structure SyncState where
  store : Store
  encountered : List String

/-- Modelled from the spec (§6): the external `default_metadata(path)`
collaborator from `anime2sd.basics` — a record with `characters`
empty/absent, `filename` derived from the path, and no `'path'` link of
its own. -/
def defaultMetadata (p : String) : MetaRecord :=
  { path := none, filename := basename p, characters := [] }

/-- Body of the inner loop of `save_characters_to_meta` (lines 35–88) for
one directory entry `imgFile`, given the already-derived `charName` and
the crop image's full path.  Mirrors the source order: extension filter,
fatal load of the crop's record, overwrite of its `characters`, then the
original-frame merge (reset on first encounter, append if absent, save),
then the save of the crop's own record. -/
def syncImage (charName imgPath : String) (st : SyncState) :
    SyncState × Option Err :=
  match st.store imgPath with
  | none => (st, some .missingMetadata)
  | some meta =>
    let meta' := { meta with characters := [charName] }
    match meta.path with
    | some originalPath =>
      let origMeta := (st.store originalPath).getD (defaultMetadata originalPath)
      let firstTouch := originalPath ∉ st.encountered
      let origMeta1 := if firstTouch then { origMeta with characters := [] } else origMeta
      let enc1 := if firstTouch then originalPath :: st.encountered else st.encountered
      let origMeta2 :=
        if charName ∈ origMeta1.characters then origMeta1
        else { origMeta1 with characters := origMeta1.characters ++ [charName] }
      ({ store := upd (upd st.store originalPath origMeta2) imgPath meta',
         encountered := enc1 }, none)
    | none =>
      ({ store := upd st.store imgPath meta', encountered := st.encountered }, none)

/-- One file-loop step including the image-extension filter (lines 36–41):
non-image files are skipped without touching state. -/
def syncFile (cropDir folderName charName : String) (imgFile : String)
    (st : SyncState) : SyncState × Option Err :=
  if isImageFile imageExts imgFile then
    syncImage charName (pathJoin (pathJoin cropDir folderName) imgFile) st
  else
    (st, none)

/-- One folder-loop step of `save_characters_to_meta` (lines 24–88):
derive the character name, skip `noise*` folders and non-directories,
then run the file loop. -/
def syncFolder (cropDir : String) (e : CropEntry) (st : SyncState) :
    SyncState × Option Err :=
  let charName := folderCharName e.name
  if pyStartsWith charName "noise" then (st, none)
  else if !e.isDir then (st, none)
  else runList (syncFile cropDir e.name charName) e.files st

/-- The Label Synchronizer `save_characters_to_meta(crop_dir)` (lines
12–88): iterate the crop-folder entries over the metadata store, starting
with a fresh run-scoped `encountered_paths` set. -/
def save_characters_to_meta (cropDir : String) (entries : List CropEntry)
    (store : Store) : SyncState × Option Err :=
  runList (syncFolder cropDir) entries { store := store, encountered := [] }

/-! ### `resize_image` -/

/-- Modelled external collaborator `cv2.resize(image, None, fx=f, fy=f,
interpolation=cv2.INTER_AREA)`: output sides are the input sides scaled by
`f` and rounded to the nearest integer (OpenCV computes
`saturate_cast<int>(side * f)`), channels preserved; the pixel content is
an area-filter resampling, modelled so that at unit scale it copies pixels
(OpenCV's `INTER_AREA` at scale 1 averages 1×1 blocks, i.e. copies). -/
def cv2_resize (img : Image) (f : ℚ) : Image :=
  let nh := (round (f * (img.height : ℚ))).toNat
  let nw := (round (f * (img.width : ℚ))).toNat
  { height := nh, width := nw, channels := img.channels,
    pix := fun i j c => img.pix (i * img.height / nh) (j * img.width / nw) c }

/-- The module's `resize_image(image, max_size)` (lines 91–103): return the
image unchanged when `max_size > min(height, width)`, otherwise resize by
`max_size / min(height, width)` with the area filter. -/
def resize_image (image : Image) (max_size : Nat) : Image :=
  if max_size > min image.height image.width then image
  else
    cv2_resize image ((max_size : ℚ) / ((min image.height image.width : Nat) : ℚ))

/-! ### The export primitive (`save_image_and_meta`) and Export Pipeline -/

/-- The read-only source trees seen by the Export Pipeline: `cv2.imread`
(`none` models a failed read returning `None`) and the source metadata
store. -/
structure Env where
  imgFS : String → Option Image
  metaStore : Store

/-- What the Export Pipeline has written so far: destination image files,
destination metadata records (keyed by their destination path), and the
lines printed to the operator. -/
structure DstState where
  files : String → Option Image
  metas : String → Option MetaRecord
  logs : List String

/-- Modelled from the spec (§6): destination file name of the metadata
record of image `p` (`meta_filename` from `get_corr_meta_names`, a pure
deterministic function of the image path). -/
def metaFilename (p : String) : String :=
  (splitext (basename p)).1 ++ "_meta.json"

/-- The module's `save_image_and_meta(img, img_path, save_dir, ext)`
(lines 106–145).  `encodeOk` models the external codec: whether `cv2`
can encode `img` (the `cv2.imencode` success for `.webp`, the
`cv2.imwrite` success otherwise).  Mirrors the source order: build the
extension-adjusted destination path; for `.webp` try to encode — on
failure print and return (the single-file skip), on success write the
file; for any other extension call `cv2.imwrite`, whose boolean result
the source ignores; then load the source metadata record — raising when
it is absent, with the image file already written — rewrite its
`filename` by `str.replace('.png', ext)` and write it to the
destination. -/
def save_image_and_meta (env : Env) (encodeOk : Image → Bool) (img : Image)
    (img_path save_dir ext : String) (dst : DstState) :
    DstState × Option Err :=
  let filename := basename img_path
  let base_filename := (splitext filename).1
  let adjusted_filename := base_filename ++ ext
  let adjusted_path := pathJoin save_dir adjusted_filename
  let afterImg :=
    if ext = ".webp" then
      if encodeOk img then
        some { dst with files := upd dst.files adjusted_path img }
      else
        none
    else
      some { dst with files := if encodeOk img then upd dst.files adjusted_path img else dst.files }
  match afterImg with
  | none =>
    ({ dst with logs := dst.logs ++ ["Error encoding the image " ++ adjusted_path] }, none)
  | some dst1 =>
    match env.metaStore img_path with
    | some meta_data =>
      let meta' := { meta_data with filename := pyReplace meta_data.filename ".png" ext }
      ({ dst1 with metas := upd dst1.metas (pathJoin save_dir (metaFilename img_path)) meta' }, none)
    | none => (dst1, some .missingMetadata)

/-- One crop-loop step of `resize_character_images` (lines 156–176,
Export Phase A): fatal when the crop's metadata record is absent;
otherwise, when `characters` is present and non-empty, read the `'path'`
field (an unguarded dict lookup — `KeyError` when absent), `cv2.imread`
both images (attribute access on a `None` result fails, cropped first,
as `cropped_img.size` is evaluated first), skip crops larger than half
the original's array size, and otherwise resize and export into
`dst_dir/cropped`. -/
def exportCrop (env : Env) (encodeOk : Image → Bool) (max_size : Nat)
    (ext dst_dir : String) (img_path : String) (dst : DstState) :
    DstState × Option Err :=
  match env.metaStore img_path with
  | some meta_data =>
    if meta_data.characters ≠ [] then
      match meta_data.path with
      | none => (dst, some .keyError)
      | some original_path =>
        match env.imgFS img_path with
        | none => (dst, some .attributeError)
        | some cropped_img =>
          match env.imgFS original_path with
          | none => (dst, some .attributeError)
          | some original_img =>
            if (cropped_img.size : ℚ) > 0.5 * (original_img.size : ℚ) then
              (dst, none)
            else
              save_image_and_meta env encodeOk (resize_image cropped_img max_size)
                img_path (pathJoin dst_dir "cropped") ext dst
    else (dst, none)
  | none => (dst, some .missingMetadata)

/-- Export Phase A: the crop loop of `resize_character_images`. -/
def phaseA (env : Env) (encodeOk : Image → Bool) (max_size : Nat)
    (ext dst_dir : String) (cropPaths : List String) (dst : DstState) :
    DstState × Option Err :=
  runList (exportCrop env encodeOk max_size ext dst_dir) cropPaths dst

/-- One full-frame-loop step of `resize_character_images` (lines 181–199,
Export Phase B), threading the source `Env` (the no-metadata branch
writes a default record back to the source tree) and the
`nocharacter_frames` candidate list.  A frame with characters is read and
resized but not exported (the export call is commented out in the
source); reading a missing image there fails on `image.shape`. -/
def phaseBStep (max_size : Nat) (img_path : String)
    (s : Env × List String) : (Env × List String) × Option Err :=
  let env := s.1
  let cands := s.2
  match env.metaStore img_path with
  | some meta_data =>
    if meta_data.characters ≠ [] then
      match env.imgFS img_path with
      | none => ((env, cands), some .attributeError)
      | some full_img =>
        let _ := resize_image full_img max_size
        ((env, cands), none)
    else ((env, cands ++ [img_path]), none)
  | none =>
    (({ env with metaStore := upd env.metaStore img_path (defaultMetadata img_path) },
      cands ++ [img_path]), none)

/-- Export Phase B: the full-frame loop, returning the updated source
environment and the `nocharacter_frames` candidate list. -/
def phaseB (env : Env) (max_size : Nat) (fullPaths : List String) :
    (Env × List String) × Option Err :=
  runList (phaseBStep max_size) fullPaths (env, [])

/-- Model of Python `random.sample(l, k)` (sampling without replacement):
the randomness is an oracle list `r` of numbers; each draw removes the
element at position `r₀ % remaining` from the remaining population. -/
def pySample {α : Type} : List α → Nat → List Nat → List α
  | _, 0, _ => []
  | l, k + 1, r =>
    match l[r.headD 0 % l.length]? with
    | some x => x :: pySample (l.eraseIdx (r.headD 0 % l.length)) k r.tail
    | none => []

/-- The no-character frame selection of `resize_character_images` (lines
201–206): a random sample of size `n_nocharacter_frames` when the
candidate list is longer than that, the whole candidate list otherwise. -/
def selectFrames (n_nocharacter_frames : Nat) (nocharacter_frames : List String)
    (r : List Nat) : List String :=
  if n_nocharacter_frames < nocharacter_frames.length then
    pySample nocharacter_frames n_nocharacter_frames r
  else
    nocharacter_frames

/-- One selected-frame step of `resize_character_images` (lines 208–212,
Export Phase C): read, resize, and export into `dst_dir/full`. -/
def exportFull (env : Env) (encodeOk : Image → Bool) (max_size : Nat)
    (ext dst_dir : String) (img_path : String) (dst : DstState) :
    DstState × Option Err :=
  match env.imgFS img_path with
  | none => (dst, some .attributeError)
  | some img =>
    save_image_and_meta env encodeOk (resize_image img max_size)
      img_path (pathJoin dst_dir "full") ext dst

/-- The Export Pipeline `resize_character_images(crop_dir, full_dir,
dst_dir, max_size, ext, n_nocharacter_frames)` (lines 148–212): Phase A
over the crop tree, Phase B over the full tree, then Phase C over the
sampled no-character frames (`r` is the randomness oracle of
`random.sample`).  Directory discovery (`get_images_recursively`) is out
of scope per the spec and enters as the two path lists. -/
def resize_character_images (env : Env) (encodeOk : Image → Bool)
    (cropPaths fullPaths : List String) (dst_dir : String) (max_size : Nat)
    (ext : String) (n_nocharacter_frames : Nat) (r : List Nat) :
    (Env × DstState) × Option Err :=
  let dst0 : DstState := { files := fun _ => none, metas := fun _ => none, logs := [] }
  match phaseA env encodeOk max_size ext dst_dir cropPaths dst0 with
  | (dst1, some e) => ((env, dst1), some e)
  | (dst1, none) =>
    match phaseB env max_size fullPaths with
    | ((env1, _), some e) => ((env1, dst1), some e)
    | ((env1, nocharacter_frames), none) =>
      let selected_frames := selectFrames n_nocharacter_frames nocharacter_frames r
      match runList (exportFull env1 encodeOk max_size ext dst_dir) selected_frames dst1 with
      | (dst2, oe) => ((env1, dst2), oe)

/-! ### Derived views of a Synchronizer run, for stating its invariants -/

/-- The (character name, crop image path) pairs a crop-folder entry
contributes to a Synchronizer run: none when the folder is a `noise*`
folder or not a directory, otherwise one pair per recognized image
file. -/
def entryCrops (cropDir : String) (e : CropEntry) : List (String × String) :=
  if pyStartsWith (folderCharName e.name) "noise" then []
  else if !e.isDir then []
  else (e.files.filter (isImageFile imageExts)).map
    (fun f => (folderCharName e.name, pathJoin (pathJoin cropDir e.name) f))

/-- All crop pairs of a run, in processing order. -/
def flatCrops (cropDir : String) (entries : List CropEntry) : List (String × String) :=
  entries.flatMap (entryCrops cropDir)

/-- The per-crop body of the Synchronizer, as a step over crop pairs. -/
def syncCrop (ev : String × String) (st : SyncState) : SyncState × Option Err :=
  syncImage ev.1 ev.2 st

/-- The character names derived (in processing order) by the crops of a
run whose metadata record, as read from `store0`, links to the original
frame `F`. -/
def namesFor (store0 : Store) (F : String) (evs : List (String × String)) : List String :=
  evs.filterMap (fun ev =>
    match store0 ev.2 with
    | some m => if m.path = some F then some ev.1 else none
    | none => none)

/-- Append each name that is not already present, preserving first
insertion order (the `characters` merge of the Synchronizer). -/
def appendNew (acc : List String) (ns : List String) : List String :=
  ns.foldl (fun a n => if n ∈ a then a else a ++ [n]) acc

/-- Deduplicated, insertion-ordered list of names. -/
def dedupAppend (ns : List String) : List String := appendNew [] ns

/-- The record the Synchronizer starts an original frame's merge from:
its stored record, or a default-constructed one. -/
def origBase (store : Store) (F : String) : MetaRecord :=
  (store F).getD (defaultMetadata F)

/-- The original-frame record written by one crop step targeting `op`
with derived name `cn`: reset on first encounter this run, then
append-if-absent. -/
def mergedOrig (st : SyncState) (op cn : String) : MetaRecord :=
  { origBase st.store op with
    characters := appendNew (if op ∈ st.encountered then (origBase st.store op).characters else []) [cn] }

/-- The state after one crop step whose record `m` links to original
frame `op`: the original's record is saved first, then the crop's own. -/
def syncStepState (st : SyncState) (cn ip op : String) (m : MetaRecord) : SyncState :=
  { store := upd (upd st.store op (mergedOrig st op cn)) ip { m with characters := [cn] },
    encountered := if op ∈ st.encountered then st.encountered else op :: st.encountered }

/-- The record an original frame `F` holds after a run over `evs` from
state `st`: its base record with `characters` rebuilt from the names the
run derives for it — appended onto the existing list when `F` was already
in the run's `encountered_paths` set when the run segment started, and
onto the empty list (the reset) otherwise. -/
def mergedAll (st : SyncState) (store0 : Store) (F : String)
    (evs : List (String × String)) : MetaRecord :=
  { origBase st.store F with
    characters :=
      if F ∈ st.encountered then appendNew (origBase st.store F).characters (namesFor store0 F evs)
      else dedupAppend (namesFor store0 F evs) }

/-! ## Theorems

### C5 — `resize_image` monotonicity (P6) -/

/-- Unit-scale area resampling is the identity: at scale factor 1 the
output geometry is the input geometry and every pixel is copied. -/
theorem cv2_resize_one (img : Image) (hh : 0 < img.height) (hw : 0 < img.width) :
    cv2_resize img 1 = img := by
  obtain ⟨h, w, c, px⟩ := img
  simp only at hh hw
  simp only [cv2_resize, one_mul, round_natCast, Int.toNat_natCast]
  congr 1
  funext i j ch
  rw [Nat.mul_div_cancel _ hh, Nat.mul_div_cancel _ hw]

/-- Scaling a side of length `m` by `ms / m` and rounding lands exactly on
`ms`. -/
theorem round_scale_exact (ms m : Nat) (hm : 0 < m) :
    (round ((ms : ℚ) / (m : ℚ) * (m : ℚ))).toNat = ms := by
  rw [div_mul_cancel₀ _ (by exact_mod_cast hm.ne' : (m : ℚ) ≠ 0)]
  rw [round_natCast, Int.toNat_natCast]

/-- Half-pixel accuracy of a rounded rescale: the rounded side times `m`
is within `m / 2` of the exact product `ms * L`. -/
theorem round_scale_bound (ms m L : Nat) (hm : 0 < m) :
    2 * |(((round ((ms : ℚ) / (m : ℚ) * (L : ℚ))).toNat : ℚ)) * (m : ℚ) - (ms : ℚ) * (L : ℚ)| ≤ (m : ℚ) := by
  set x : ℚ := (ms : ℚ) / (m : ℚ) * (L : ℚ) with hx
  have hx0 : 0 ≤ x := by positivity
  have hr0 : 0 ≤ round x := by
    rw [round_eq]
    have h0 : (0 : ℤ) = ⌊(0 : ℚ)⌋ := by simp
    rw [h0]
    exact Int.floor_le_floor (by linarith)
  have hcast : ((round x).toNat : ℚ) = ((round x : ℤ) : ℚ) := by
    exact_mod_cast Int.toNat_of_nonneg hr0
  rw [hcast]
  have habs : |((round x : ℤ) : ℚ) - x| ≤ 1 / 2 := by
    rw [abs_sub_comm]; exact abs_sub_round x
  have hmq : (0 : ℚ) < (m : ℚ) := by exact_mod_cast hm
  have hxm : x * (m : ℚ) = (ms : ℚ) * (L : ℚ) := by
    rw [hx]; field_simp
  calc 2 * |((round x : ℤ) : ℚ) * (m : ℚ) - (ms : ℚ) * (L : ℚ)|
      = 2 * (|((round x : ℤ) : ℚ) - x| * (m : ℚ)) := by
        rw [← hxm, ← sub_mul, abs_mul, abs_of_pos hmq]
    _ ≤ (m : ℚ) := by nlinarith [habs, hmq]

/-- C5: for every image of positive dimensions and every `max_size`, the
output of `resize_image` has shorter side at most `max_size`; when the
input's shorter side is already at most `max_size` the output is the
input unchanged (same dimensions and pixel content — no upscaling); and in
the downscaling case each output side times the input's shorter side is
within half of the exactly-rescaled side `max_size * side`, so the aspect
ratio is preserved to within the half-pixel rounding of each side. -/
theorem c5_resize_image_spec (img : Image) (max_size : Nat)
    (hh : 0 < img.height) (hw : 0 < img.width) :
    min (resize_image img max_size).height (resize_image img max_size).width ≤ max_size
    ∧ (min img.height img.width ≤ max_size → resize_image img max_size = img)
    ∧ (max_size ≤ min img.height img.width →
        2 * |((resize_image img max_size).height : ℚ) * ((min img.height img.width : Nat) : ℚ)
            - (max_size : ℚ) * (img.height : ℚ)| ≤ ((min img.height img.width : Nat) : ℚ)
        ∧ 2 * |((resize_image img max_size).width : ℚ) * ((min img.height img.width : Nat) : ℚ)
            - (max_size : ℚ) * (img.width : ℚ)| ≤ ((min img.height img.width : Nat) : ℚ)) := by
  have hm : 0 < min img.height img.width := lt_min hh hw
  by_cases hgt : max_size > min img.height img.width
  · rw [resize_image, if_pos hgt]
    exact ⟨le_of_lt hgt, fun _ => rfl, fun hle => absurd hgt (not_lt.mpr hle)⟩
  · have hres : resize_image img max_size
        = cv2_resize img ((max_size : ℚ) / ((min img.height img.width : Nat) : ℚ)) := by
      rw [resize_image, if_neg hgt]
    push_neg at hgt
    refine ⟨?_, ?_, ?_⟩
    · rcases min_cases img.height img.width with ⟨hmin, _⟩ | ⟨hmin, _⟩
      · have hht : (resize_image img max_size).height = max_size := by
          rw [hres]
          show (round ((max_size : ℚ) / ((min img.height img.width : Nat) : ℚ) * (img.height : ℚ))).toNat = max_size
          rw [show ((img.height : ℚ)) = ((min img.height img.width : Nat) : ℚ) by rw [hmin]]
          exact round_scale_exact _ _ hm
        exact le_trans (min_le_left _ _) (le_of_eq hht)
      · have hwt : (resize_image img max_size).width = max_size := by
          rw [hres]
          show (round ((max_size : ℚ) / ((min img.height img.width : Nat) : ℚ) * (img.width : ℚ))).toNat = max_size
          rw [show ((img.width : ℚ)) = ((min img.height img.width : Nat) : ℚ) by rw [hmin]]
          exact round_scale_exact _ _ hm
        exact le_trans (min_le_right _ _) (le_of_eq hwt)
    · intro hle
      have heq : max_size = min img.height img.width := le_antisymm hgt hle
      have h1 : ((max_size : ℚ) / ((min img.height img.width : Nat) : ℚ)) = 1 := by
        rw [heq]; exact div_self (by exact_mod_cast hm.ne')
      rw [hres, h1]
      exact cv2_resize_one img hh hw
    · intro _
      constructor
      · rw [hres]
        exact round_scale_bound max_size (min img.height img.width) img.height hm
      · rw [hres]
        exact round_scale_bound max_size (min img.height img.width) img.width hm

/-- Witness for C5 at the concrete 4×6×3 image and `max_size = 5`: the
hypotheses hold and the conclusion applies (here the image is within
bound, so it is returned unchanged). -/
theorem c5_resize_image_spec_witness :
    min (resize_image ⟨4, 6, 3, fun _ _ _ => 0⟩ 5).height (resize_image ⟨4, 6, 3, fun _ _ _ => 0⟩ 5).width ≤ 5
    ∧ (min 4 6 ≤ 5 → resize_image ⟨4, 6, 3, fun _ _ _ => 0⟩ 5 = ⟨4, 6, 3, fun _ _ _ => 0⟩)
    ∧ (5 ≤ min 4 6 →
        2 * |((resize_image ⟨4, 6, 3, fun _ _ _ => 0⟩ 5).height : ℚ) * ((min 4 6 : Nat) : ℚ)
            - (5 : ℚ) * (4 : ℚ)| ≤ ((min 4 6 : Nat) : ℚ)
        ∧ 2 * |((resize_image ⟨4, 6, 3, fun _ _ _ => 0⟩ 5).width : ℚ) * ((min 4 6 : Nat) : ℚ)
            - (5 : ℚ) * (6 : ℚ)| ≤ ((min 4 6 : Nat) : ℚ)) := by
  have h := c5_resize_image_spec ⟨4, 6, 3, fun _ _ _ => 0⟩ 5 (by decide) (by decide)
  exact_mod_cast h

/-! ### C6 — no-character sampling bound (P5) -/

/-- A list is a permutation of any of its elements consed onto the list
with that element's position erased. -/
theorem perm_getElem_cons_eraseIdx {α : Type} (l : List α) (i : Nat) (h : i < l.length) :
    l.Perm (l[i] :: l.eraseIdx i) := by
  induction l generalizing i with
  | nil => simp at h
  | cons x xs ih =>
    cases i with
    | zero => simp
    | succ j =>
      have hj : j < xs.length := by simpa using h
      have h1 : (x :: xs).Perm (x :: (xs[j] :: xs.eraseIdx j)) := List.Perm.cons x (ih j hj)
      have h2 : (x :: xs[j] :: xs.eraseIdx j).Perm (xs[j] :: x :: xs.eraseIdx j) :=
        List.Perm.swap _ _ _
      have h3 : (x :: xs)[j + 1] = xs[j] := by simp
      have h4 : (x :: xs).eraseIdx (j + 1) = x :: xs.eraseIdx j := rfl
      rw [h3, h4]
      exact h1.trans h2

/-- Sampling `k ≤ |l|` elements without replacement yields exactly `k`
elements. -/
theorem pySample_length {α : Type} (k : Nat) (l : List α) (r : List Nat)
    (hk : k ≤ l.length) : (pySample l k r).length = k := by
  induction k generalizing l r with
  | zero => rfl
  | succ j ih =>
    have hl : 0 < l.length := lt_of_lt_of_le (Nat.succ_pos j) hk
    have hi : r.headD 0 % l.length < l.length := Nat.mod_lt _ hl
    rw [pySample]
    rw [List.getElem?_eq_getElem hi]
    simp only [List.length_cons]
    rw [ih (l.eraseIdx _) r.tail]
    rw [List.length_eraseIdx, if_pos hi]
    omega

/-- A sample drawn without replacement is a sub-permutation of the
population: it uses each occurrence at most once. -/
theorem pySample_subperm {α : Type} (k : Nat) (l : List α) (r : List Nat) :
    (pySample l k r).Subperm l := by
  induction k generalizing l r with
  | zero => exact List.nil_subperm
  | succ j ih =>
    rw [pySample]
    by_cases hl : 0 < l.length
    · have hi : r.headD 0 % l.length < l.length := Nat.mod_lt _ hl
      rw [List.getElem?_eq_getElem hi]
      have hsub : (pySample (l.eraseIdx (r.headD 0 % l.length)) j r.tail).Subperm
          (l.eraseIdx (r.headD 0 % l.length)) := ih _ _
      have hcons := (List.subperm_cons (l[r.headD 0 % l.length])).mpr hsub
      exact hcons.trans (perm_getElem_cons_eraseIdx l _ hi).symm.subperm
    · have : l.length = 0 := Nat.eq_zero_of_not_pos hl
      have hl0 : l = [] := List.length_eq_zero.mp this
      subst hl0
      simp

/-- C6: the no-character frame selection of the Export Pipeline (Phase C
of `resize_character_images`) selects exactly
`min n_nocharacter_frames (number of candidates)` frames, the selection
is a without-replacement sample of the candidate list (a
sub-permutation), and when `n_nocharacter_frames` is at least the
candidate count the selection is the entire candidate list, for every
randomness oracle. -/
theorem c6_selectFrames_spec (n : Nat) (cands : List String) (r : List Nat) :
    (selectFrames n cands r).length = min n cands.length
    ∧ (selectFrames n cands r).Subperm cands
    ∧ (cands.length ≤ n → selectFrames n cands r = cands) := by
  unfold selectFrames
  by_cases h : n < cands.length
  · rw [if_pos h]
    refine ⟨?_, pySample_subperm n cands r, fun hle => absurd h (not_lt.mpr hle)⟩
    rw [pySample_length n cands r (le_of_lt h), min_eq_left (le_of_lt h)]
  · rw [if_neg h]
    push_neg at h
    exact ⟨(min_eq_right h).symm, List.Subperm.refl _, fun _ => rfl⟩

/-- Witness for C6 at `n = 10` over a four-element candidate pool
(spec Scenario E: under-request exports the full pool). -/
theorem c6_selectFrames_spec_witness :
    (selectFrames 10 ["a", "b", "c", "d"] []).length = min 10 4
    ∧ (selectFrames 10 ["a", "b", "c", "d"] []).Subperm ["a", "b", "c", "d"]
    ∧ (([("a" : String), "b", "c", "d"].length ≤ 10) → selectFrames 10 ["a", "b", "c", "d"] [] = ["a", "b", "c", "d"]) :=
  c6_selectFrames_spec 10 ["a", "b", "c", "d"] []

/-! ### C4 — crop area filter (P4) -/

/-- C4: in Export Phase A, a crop whose pixel area exceeds half the pixel
area of its linked original frame is never exported: its loop step leaves
the destination tree untouched (no image file, no metadata record) and
raises nothing.  The channel hypotheses record that `cv2.imread` loads
both images with the same (positive) channel count, under which the
source's array-size comparison coincides with the pixel-area
comparison. -/
theorem c4_area_filter (env : Env) (encodeOk : Image → Bool) (max_size : Nat)
    (ext dst_dir img_path : String) (dst : DstState)
    (m : MetaRecord) (original_path : String) (ci oi : Image)
    (hmeta : env.metaStore img_path = some m)
    (hchars : m.characters ≠ [])
    (hpath : m.path = some original_path)
    (hci : env.imgFS img_path = some ci)
    (hoi : env.imgFS original_path = some oi)
    (hch : ci.channels = oi.channels)
    (hch0 : 0 < ci.channels)
    (harea : ((ci.height * ci.width : Nat) : ℚ) > 0.5 * ((oi.height * oi.width : Nat) : ℚ)) :
    exportCrop env encodeOk max_size ext dst_dir img_path dst = (dst, none) := by
  have hsize : (ci.size : ℚ) > 0.5 * (oi.size : ℚ) := by
    unfold Image.size
    rw [← hch]
    have hcq : (0 : ℚ) < (ci.channels : ℚ) := by exact_mod_cast hch0
    push_cast
    push_cast at harea
    nlinarith
  unfold exportCrop
  rw [hmeta]
  simp only [hchars, if_true, ne_eq, not_false_iff]
  rw [hpath]
  dsimp only
  rw [hci]
  dsimp only
  rw [hoi]
  dsimp only
  rw [if_pos hsize]

/-- Witness for C4: a 4×4 crop of a 5×5 original (areas 16 > 12.5) is
skipped, leaving the destination state unchanged. -/
theorem c4_area_filter_witness :
    exportCrop
      { imgFS := fun p =>
          if p = "crops/0_alice/i.png" then some ⟨4, 4, 3, fun _ _ _ => 0⟩
          else if p = "full/F.png" then some ⟨5, 5, 3, fun _ _ _ => 0⟩
          else none,
        metaStore := fun p =>
          if p = "crops/0_alice/i.png" then some ⟨some "full/F.png", "i.png", ["alice"]⟩
          else none }
      (fun _ => true) 100 ".webp" "out" "crops/0_alice/i.png"
      ⟨fun _ => none, fun _ => none, []⟩
    = (⟨fun _ => none, fun _ => none, []⟩, none) := by
  exact c4_area_filter _ _ _ _ _ _ _ _ "full/F.png" ⟨4, 4, 3, fun _ _ _ => 0⟩
    ⟨5, 5, 3, fun _ _ _ => 0⟩ rfl (by decide) rfl rfl rfl rfl (by decide) (by norm_num)

/-! ### C10 — unguarded `meta_data['path']` in Export Phase A -/

/-- C10: a crop metadata record with non-empty `characters` but no
`'path'` key makes the Phase A step fail with a `KeyError` (the dict
lookup on line 164 is unguarded) — not with the `MissingMetadataError`
of the spec's taxonomy and not a skip. -/
theorem c10_missing_path_keyerror (env : Env) (encodeOk : Image → Bool) (max_size : Nat)
    (ext dst_dir img_path : String) (dst : DstState) (m : MetaRecord)
    (hmeta : env.metaStore img_path = some m)
    (hchars : m.characters ≠ [])
    (hpath : m.path = none) :
    exportCrop env encodeOk max_size ext dst_dir img_path dst = (dst, some Err.keyError) := by
  unfold exportCrop
  rw [hmeta]
  simp only [hchars, ne_eq, not_false_iff, if_true]
  rw [hpath]

/-- Witness for C10: a concrete crop record carrying `characters` but no
`'path'` makes the step raise `KeyError`. -/
theorem c10_missing_path_keyerror_witness :
    exportCrop
      { imgFS := fun _ => none,
        metaStore := fun p =>
          if p = "crops/0_alice/i.png" then some ⟨none, "i.png", ["alice"]⟩ else none }
      (fun _ => true) 100 ".webp" "out" "crops/0_alice/i.png"
      ⟨fun _ => none, fun _ => none, []⟩
    = (⟨fun _ => none, fun _ => none, []⟩, some Err.keyError) := by
  exact c10_missing_path_keyerror _ _ _ _ _ _ _ ⟨none, "i.png", ["alice"]⟩ rfl (by decide) rfl

/-! ### Helper lemmas for the export primitive -/

/-- Looking up the just-updated key returns the new value. -/
theorem upd_self {α : Type} (f : String → Option α) (k : String) (v : α) :
    upd f k v k = some v := by simp [upd]

/-- Character data of a string append. -/
theorem data_append (s t : String) : (s ++ t).data = s.data ++ t.data := by
  cases s; cases t; rfl

/-- A path assembled as `dir / (base ++ e)` ends in `e`. -/
theorem endsIn_pathJoin_append (d b e : String) : endsIn (pathJoin d (b ++ e)) e := by
  unfold endsIn pathJoin
  refine ⟨(d ++ "/").data ++ b.data, ?_⟩
  simp [data_append, List.append_assoc]

/-- Replacing every `".png"` occurrence in a string that ends in `".png"`
yields a string that ends in the replacement (the pattern has no
self-overlap, so the trailing occurrence is always replaced). -/
theorem replaceAll_png_suffix_aux (rep : List Char) :
    ∀ n (s : List Char), s.length ≤ n → ['.', 'p', 'n', 'g'] <:+ s →
      rep <:+ replaceAll ['.', 'p', 'n', 'g'] rep n s := by
  intro n
  induction n with
  | zero =>
    intro s hlen hs
    obtain ⟨u, hu⟩ := hs
    have h0 : s.length = 0 := Nat.le_zero.mp hlen
    rw [← hu] at h0
    simp at h0
  | succ n ih =>
    intro s hlen hs
    match s with
    | [] =>
      obtain ⟨u, hu⟩ := hs
      simp at hu
    | c :: cs =>
      rw [replaceAll]
      simp only [show (['.', 'p', 'n', 'g'] : List Char).length = 4 from rfl]
      by_cases hpre : 0 < 4 ∧ (c :: cs).take 4 = ['.', 'p', 'n', 'g']
      · rw [if_pos hpre]
        by_cases hd : (c :: cs).drop 4 = []
        · rw [hd]
          show rep <:+ rep ++ replaceAll _ rep n []
          have hnil : replaceAll (['.', 'p', 'n', 'g'] : List Char) rep n [] = [] := by
            cases n <;> rfl
          rw [hnil]
          exact ⟨[], by simp⟩
        · obtain ⟨u, hu⟩ := hs
          have hul : 4 ≤ u.length := by
            by_contra hle
            push_neg at hle
            have h1 : cs.length + 1 = u.length + 4 := by
              have h2 := congrArg List.length hu
              simp at h2
              omega
            have hne : 1 ≤ u.length := by
              rcases Nat.eq_zero_or_pos u.length with h0 | hpos
              · exfalso
                have hu0 : u = [] := List.length_eq_zero.mp h0
                rw [hu0, List.nil_append] at hu
                apply hd
                rw [← hu]
                rfl
              · exact hpos
            interval_cases hlu : u.length
            · obtain ⟨a, rfl⟩ : ∃ a, u = [a] := by
                match u, hlu with
                | [a], _ => exact ⟨a, rfl⟩
              rw [← hu] at hpre
              simp at hpre
            · obtain ⟨a, b, rfl⟩ : ∃ a b, u = [a, b] := by
                match u, hlu with
                | [a, b], _ => exact ⟨a, b, rfl⟩
              rw [← hu] at hpre
              simp at hpre
            · obtain ⟨a, b, c', rfl⟩ : ∃ a b c', u = [a, b, c'] := by
                match u, hlu with
                | [a, b, c'], _ => exact ⟨a, b, c', rfl⟩
              rw [← hu] at hpre
              simp at hpre
          have hdrop : (c :: cs).drop 4 = u.drop 4 ++ ['.', 'p', 'n', 'g'] := by
            rw [← hu]
            exact List.drop_append_of_le_length hul
          have hsuf : (['.', 'p', 'n', 'g'] : List Char) <:+ (c :: cs).drop 4 :=
            hdrop ▸ ⟨u.drop 4, rfl⟩
          have hlen' : ((c :: cs).drop 4).length ≤ n := by
            simp only [List.length_drop, List.length_cons]
            simp only [List.length_cons] at hlen
            omega
          obtain ⟨t, ht⟩ := ih ((c :: cs).drop 4) hlen' hsuf
          exact ⟨rep ++ t, by rw [List.append_assoc, ht]⟩
      · rw [if_neg hpre]
        obtain ⟨u, hu⟩ := hs
        match u with
        | [] =>
          exfalso
          rw [List.nil_append] at hu
          apply hpre
          refine ⟨by norm_num, ?_⟩
          rw [← hu]
          rfl
        | a :: u' =>
          have hcs : cs = u' ++ ['.', 'p', 'n', 'g'] := by
            rw [List.cons_append] at hu
            exact (List.cons_eq_cons.mp hu).2.symm
          have hlen' : cs.length ≤ n := by
            simp only [List.length_cons] at hlen
            omega
          exact (ih cs hlen' ⟨u', hcs.symm⟩).trans (List.suffix_cons c _)

/-- String-level corollary: a `filename` ending in `".png"` still ends in
the requested extension after the `str.replace('.png', ext)` rewrite. -/
theorem pyReplace_png_ends (s e : String) (h : endsIn s ".png") :
    endsIn (pyReplace s ".png" e) e :=
  replaceAll_png_suffix_aux e.data s.data.length s.data le_rfl h

/-! ### C2 — extension fidelity of the export primitive (P3) -/

/-- C2 amended: when the source record exists and the codec succeeds,
`save_image_and_meta` completes without error; the exported image is
stored at the path `save_dir / (stem ++ ext)`, which always ends in the
requested extension; the exported metadata record is the source record
with `filename` rewritten by `str.replace('.png', ext)`; and that
`filename` ends in the requested extension whenever the source record's
`filename` ended in `".png"` (for any other stored extension the
`replace` leaves the filename unchanged — see the counterexample). -/
theorem c2_extension_fidelity (env : Env) (encodeOk : Image → Bool) (img : Image)
    (img_path save_dir ext : String) (dst : DstState) (m : MetaRecord)
    (hmeta : env.metaStore img_path = some m)
    (henc : encodeOk img = true) :
    (save_image_and_meta env encodeOk img img_path save_dir ext dst).2 = none
    ∧ (save_image_and_meta env encodeOk img img_path save_dir ext dst).1.files
        (pathJoin save_dir ((splitext (basename img_path)).1 ++ ext)) = some img
    ∧ endsIn (pathJoin save_dir ((splitext (basename img_path)).1 ++ ext)) ext
    ∧ (save_image_and_meta env encodeOk img img_path save_dir ext dst).1.metas
        (pathJoin save_dir (metaFilename img_path))
        = some { m with filename := pyReplace m.filename ".png" ext }
    ∧ (endsIn m.filename ".png" → endsIn (pyReplace m.filename ".png" ext) ext) := by
  have hres : save_image_and_meta env encodeOk img img_path save_dir ext dst
      = ({ files := upd dst.files (pathJoin save_dir ((splitext (basename img_path)).1 ++ ext)) img,
           metas := upd dst.metas (pathJoin save_dir (metaFilename img_path))
             { m with filename := pyReplace m.filename ".png" ext },
           logs := dst.logs }, none) := by
    by_cases hw : ext = ".webp"
    · simp only [save_image_and_meta, hw, henc, hmeta, if_true, if_pos]
    · simp only [save_image_and_meta, hw, henc, hmeta, if_true, if_false, if_neg]
  rw [hres]
  refine ⟨rfl, upd_self _ _ _, endsIn_pathJoin_append _ _ _, upd_self _ _ _,
    fun h => pyReplace_png_ends m.filename ext h⟩

/-- Counterexample for C2 as stated: a source record whose `filename` is
`"foo.jpg"` is exported with extension `".webp"`, yet the written
metadata keeps `filename == "foo.jpg"`, which does not end in the
requested extension — `str.replace('.png', ext)` only rewrites a
`".png"` extension. -/
theorem c2_counterexample :
    (save_image_and_meta
      ⟨fun _ => none, fun p => if p = "src/foo.jpg" then some ⟨none, "foo.jpg", []⟩ else none⟩
      (fun _ => true) ⟨1, 1, 3, fun _ _ _ => 0⟩ "src/foo.jpg" "out" ".webp"
      ⟨fun _ => none, fun _ => none, []⟩).1.metas (pathJoin "out" (metaFilename "src/foo.jpg"))
      = some ⟨none, "foo.jpg", []⟩
    ∧ ¬ endsIn "foo.jpg" ".webp" := by
  constructor
  · rfl
  · decide

/-- Witness for C2 at a `.png`-named source record exported as `.webp`. -/
theorem c2_extension_fidelity_witness :
    (save_image_and_meta
      ⟨fun _ => none, fun p => if p = "src/foo.png" then some ⟨none, "foo.png", []⟩ else none⟩
      (fun _ => true) ⟨1, 1, 3, fun _ _ _ => 0⟩ "src/foo.png" "out" ".webp"
      ⟨fun _ => none, fun _ => none, []⟩).2 = none
    ∧ (save_image_and_meta
      ⟨fun _ => none, fun p => if p = "src/foo.png" then some ⟨none, "foo.png", []⟩ else none⟩
      (fun _ => true) ⟨1, 1, 3, fun _ _ _ => 0⟩ "src/foo.png" "out" ".webp"
      ⟨fun _ => none, fun _ => none, []⟩).1.files
        (pathJoin "out" ((splitext (basename "src/foo.png")).1 ++ ".webp")) = some ⟨1, 1, 3, fun _ _ _ => 0⟩
    ∧ endsIn (pathJoin "out" ((splitext (basename "src/foo.png")).1 ++ ".webp")) ".webp"
    ∧ (save_image_and_meta
      ⟨fun _ => none, fun p => if p = "src/foo.png" then some ⟨none, "foo.png", []⟩ else none⟩
      (fun _ => true) ⟨1, 1, 3, fun _ _ _ => 0⟩ "src/foo.png" "out" ".webp"
      ⟨fun _ => none, fun _ => none, []⟩).1.metas
        (pathJoin "out" (metaFilename "src/foo.png"))
        = some { (⟨none, "foo.png", []⟩ : MetaRecord) with filename := pyReplace "foo.png" ".png" ".webp" }
    ∧ (endsIn "foo.png" ".png" → endsIn (pyReplace "foo.png" ".png" ".webp") ".webp") :=
  c2_extension_fidelity _ _ _ _ _ _ _ ⟨none, "foo.png", []⟩ rfl rfl

/-! ### C9 — the export primitive writes the image before the metadata check -/

/-- C9: when the source metadata record is missing and the codec
succeeds, `save_image_and_meta` raises `MissingMetadataError` *after*
having written the destination image file: the failing call's final state
contains the new image at the extension-adjusted path. -/
theorem c9_nonatomic (env : Env) (encodeOk : Image → Bool) (img : Image)
    (img_path save_dir ext : String) (dst : DstState)
    (hmeta : env.metaStore img_path = none)
    (henc : encodeOk img = true) :
    save_image_and_meta env encodeOk img img_path save_dir ext dst
      = ({ dst with files := upd dst.files (pathJoin save_dir ((splitext (basename img_path)).1 ++ ext)) img }, some Err.missingMetadata)
    ∧ (save_image_and_meta env encodeOk img img_path save_dir ext dst).1.files
        (pathJoin save_dir ((splitext (basename img_path)).1 ++ ext)) = some img := by
  have hres : save_image_and_meta env encodeOk img img_path save_dir ext dst
      = ({ dst with files := upd dst.files (pathJoin save_dir ((splitext (basename img_path)).1 ++ ext)) img }, some Err.missingMetadata) := by
    by_cases hw : ext = ".webp"
    · simp only [save_image_and_meta, hw, henc, hmeta, if_true, if_pos]
    · simp only [save_image_and_meta, hw, henc, hmeta, if_true, if_false, if_neg]
  exact ⟨hres, by rw [hres]; exact upd_self _ _ _⟩

/-- Witness for C9: concrete missing-metadata export leaves the image
behind and raises. -/
theorem c9_nonatomic_witness :
    save_image_and_meta ⟨fun _ => none, fun _ => none⟩ (fun _ => true)
      ⟨1, 1, 3, fun _ _ _ => 0⟩ "src/i.png" "out" ".webp"
      ⟨fun _ => none, fun _ => none, []⟩
      = ({ (⟨fun _ => none, fun _ => none, []⟩ : DstState) with files := upd (fun _ => none) (pathJoin "out" ((splitext (basename "src/i.png")).1 ++ ".webp")) ⟨1, 1, 3, fun _ _ _ => 0⟩ }, some Err.missingMetadata)
    ∧ (save_image_and_meta ⟨fun _ => none, fun _ => none⟩ (fun _ => true)
      ⟨1, 1, 3, fun _ _ _ => 0⟩ "src/i.png" "out" ".webp"
      ⟨fun _ => none, fun _ => none, []⟩).1.files
        (pathJoin "out" ((splitext (basename "src/i.png")).1 ++ ".webp")) = some ⟨1, 1, 3, fun _ _ _ => 0⟩ :=
  c9_nonatomic _ _ _ _ _ _ _ rfl rfl

/-! ### C8 — codec failure handling in the export primitive -/

/-- C8 amended: for a `.webp` export an encoding failure is non-fatal and
skips the pair completely — the failure is reported on the log, no image
file and no metadata record is written, and no exception propagates; for
any other extension the source has no failure handling at all: the
`cv2.imwrite` result is discarded, nothing is reported, and the metadata
record is written even though the image file is not. -/
theorem c8_encode_failure_behavior (env : Env) (encodeOk : Image → Bool) (img : Image)
    (img_path save_dir ext : String) (dst : DstState) (m : MetaRecord)
    (hfail : encodeOk img = false) :
    (save_image_and_meta env encodeOk img img_path save_dir ".webp" dst
      = ({ dst with logs := dst.logs ++ ["Error encoding the image " ++ pathJoin save_dir ((splitext (basename img_path)).1 ++ ".webp")] }, none))
    ∧ (ext ≠ ".webp" → env.metaStore img_path = some m →
        save_image_and_meta env encodeOk img img_path save_dir ext dst
          = ({ dst with metas := upd dst.metas (pathJoin save_dir (metaFilename img_path)) { m with filename := pyReplace m.filename ".png" ext } }, none)) := by
  constructor
  · simp only [save_image_and_meta, hfail, Bool.false_eq_true, if_true, if_false]
  · intro hw hm
    simp only [save_image_and_meta, hw, hfail, hm, Bool.false_eq_true, if_true, if_false, if_neg]

/-- Counterexample for C8 as stated: a failing encode of a `.jpg` export
does not skip the pair — the metadata record is still written to the
destination (and nothing is reported), contradicting "neither the image
file nor its metadata record is written". -/
theorem c8_counterexample :
    ((save_image_and_meta
      ⟨fun _ => none, fun p => if p = "src/i.png" then some ⟨none, "i.png", []⟩ else none⟩
      (fun _ => false) ⟨1, 1, 3, fun _ _ _ => 0⟩ "src/i.png" "out" ".jpg"
      ⟨fun _ => none, fun _ => none, []⟩).1.metas (pathJoin "out" (metaFilename "src/i.png")) ≠ none)
    ∧ (save_image_and_meta
      ⟨fun _ => none, fun p => if p = "src/i.png" then some ⟨none, "i.png", []⟩ else none⟩
      (fun _ => false) ⟨1, 1, 3, fun _ _ _ => 0⟩ "src/i.png" "out" ".jpg"
      ⟨fun _ => none, fun _ => none, []⟩).1.files
        (pathJoin "out" ((splitext (basename "src/i.png")).1 ++ ".jpg")) = none := by
  constructor
  · decide
  · rfl

/-- Witness for C8's amended statement at a concrete failing codec. -/
theorem c8_encode_failure_behavior_witness :
    (save_image_and_meta ⟨fun _ => none, fun _ => none⟩ (fun _ => false)
      ⟨1, 1, 3, fun _ _ _ => 0⟩ "src/i.png" "out" ".webp"
      ⟨fun _ => none, fun _ => none, []⟩
      = ({ (⟨fun _ => none, fun _ => none, []⟩ : DstState) with logs := [] ++ ["Error encoding the image " ++ pathJoin "out" ((splitext (basename "src/i.png")).1 ++ ".webp")] }, none))
    ∧ ((".jpg" : String) ≠ ".webp" →
        (⟨fun _ => none, fun _ => none⟩ : Env).metaStore "src/i.png" = some ⟨none, "i.png", []⟩ →
        save_image_and_meta ⟨fun _ => none, fun _ => none⟩ (fun _ => false)
          ⟨1, 1, 3, fun _ _ _ => 0⟩ "src/i.png" "out" ".jpg"
          ⟨fun _ => none, fun _ => none, []⟩
          = ({ (⟨fun _ => none, fun _ => none, []⟩ : DstState) with metas := upd (fun _ => none) (pathJoin "out" (metaFilename "src/i.png")) { (⟨none, "i.png", []⟩ : MetaRecord) with filename := pyReplace "i.png" ".png" ".jpg" } }, none)) :=
  c8_encode_failure_behavior _ _ _ "src/i.png" "out" ".jpg" _ ⟨none, "i.png", []⟩ rfl

/-! ### Helper lemmas for the Synchronizer characterization -/

/-- Looking up a different key leaves the map unchanged. -/
theorem upd_ne {α : Type} (f : String → Option α) (k : String) (v : α) (p : String)
    (h : p ≠ k) : upd f k v p = f p := by simp [upd, h]

theorem appendNew_nil (acc : List String) : appendNew acc [] = acc := rfl

theorem appendNew_cons (acc : List String) (c : String) (ns : List String) :
    appendNew acc (c :: ns) = appendNew (if c ∈ acc then acc else acc ++ [c]) ns := rfl

/-- A loop over `xs ++ ys` first runs `xs`; when that part completes
without raising it continues with `ys` from the reached state. -/
theorem runList_append_ok {α σ : Type} (f : α → σ → σ × Option Err)
    (xs ys : List α) (st st1 : σ) (h : runList f xs st = (st1, none)) :
    runList f (xs ++ ys) st = runList f ys st1 := by
  induction xs generalizing st with
  | nil =>
    simp only [runList] at h
    obtain ⟨rfl, -⟩ : st = st1 ∧ True := by
      injection h with h1 h2
      exact ⟨h1, trivial⟩
    rfl
  | cons x xs ih =>
    rw [List.cons_append, runList]
    rw [runList] at h
    match hx : f x st with
    | (st', none) =>
      rw [hx] at h
      exact ih st' h
    | (st', some e) =>
      rw [hx] at h
      injection h with h1 h2
      exact absurd h2 (by simp)

/-- A loop over `xs ++ ys` that raises within `xs` stops there: the items
of `ys` are never processed. -/
theorem runList_append_err {α σ : Type} (f : α → σ → σ × Option Err)
    (xs ys : List α) (st st1 : σ) (e : Err) (h : runList f xs st = (st1, some e)) :
    runList f (xs ++ ys) st = (st1, some e) := by
  induction xs generalizing st with
  | nil =>
    simp only [runList] at h
    injection h with h1 h2
    exact absurd h2 (by simp)
  | cons x xs ih =>
    rw [List.cons_append, runList]
    rw [runList] at h
    match hx : f x st with
    | (st', none) =>
      rw [hx] at h
      exact ih st' h
    | (st', some e') =>
      rw [hx] at h
      dsimp only at h ⊢
      exact h

/-- The Synchronizer's file loop over one folder equals the flat crop-pair
loop over that folder's recognized image files. -/
theorem runList_syncFile (cropDir fname cname : String) (files : List String)
    (st : SyncState) :
    runList (syncFile cropDir fname cname) files st
      = runList syncCrop ((files.filter (isImageFile imageExts)).map
          (fun f => (cname, pathJoin (pathJoin cropDir fname) f))) st := by
  induction files generalizing st with
  | nil => rfl
  | cons f fs ih =>
    by_cases hf : isImageFile imageExts f = true
    · rw [runList]
      have hstep : syncFile cropDir fname cname f st
          = syncImage cname (pathJoin (pathJoin cropDir fname) f) st := by
        rw [syncFile, if_pos hf]
      rw [hstep]
      rw [List.filter_cons, if_pos hf, List.map_cons, runList]
      unfold syncCrop
      dsimp only
      match hx : syncImage cname (pathJoin (pathJoin cropDir fname) f) st with
      | (st', none) => exact ih st'
      | (st', some e) => rfl
    · rw [runList]
      have hstep : syncFile cropDir fname cname f st = (st, none) := by
        rw [syncFile, if_neg hf]
      rw [hstep]
      rw [List.filter_cons, if_neg hf]
      exact ih st

/-- One folder step of the Synchronizer equals the flat crop-pair loop
over that folder's contributed pairs. -/
theorem syncFolder_eq (cropDir : String) (e : CropEntry) (st : SyncState) :
    syncFolder cropDir e st = runList syncCrop (entryCrops cropDir e) st := by
  rw [syncFolder, entryCrops]
  by_cases hn : pyStartsWith (folderCharName e.name) "noise" = true
  · rw [if_pos hn, if_pos hn]
    rfl
  · rw [if_neg hn, if_neg hn]
    by_cases hd : e.isDir = true
    · simp only [hd, Bool.not_true, Bool.false_eq_true, if_false]
      exact runList_syncFile cropDir e.name (folderCharName e.name) e.files st
    · have hd' : e.isDir = false := by
        cases hbool : e.isDir
        · rfl
        · exact absurd hbool hd
      simp only [hd', Bool.not_false, if_true]
      rfl

/-- The Synchronizer is the flat crop-pair loop over `flatCrops`. -/
theorem sync_flat (cropDir : String) (entries : List CropEntry) (store : Store) :
    save_characters_to_meta cropDir entries store
      = runList syncCrop (flatCrops cropDir entries) { store := store, encountered := [] } := by
  rw [save_characters_to_meta, flatCrops]
  generalize ({ store := store, encountered := [] } : SyncState) = st
  induction entries generalizing st with
  | nil => rfl
  | cons e es ih =>
    rw [runList, List.flatMap_cons, syncFolder_eq]
    match h : runList syncCrop (entryCrops cropDir e) st with
    | (st1, none) =>
      dsimp only
      rw [ih st1, runList_append_ok _ _ _ _ _ h]
    | (st1, some err) =>
      dsimp only
      rw [runList_append_err _ _ _ _ _ _ h]

/-- Unfolding of one Synchronizer crop step whose record has no `'path'`
link: only the crop's own record is rewritten. -/
theorem syncImage_no_path (cn ip : String) (st : SyncState) (m : MetaRecord)
    (hst : st.store ip = some m) (hp : m.path = none) :
    syncImage cn ip st
      = ({ store := upd st.store ip { m with characters := [cn] },
           encountered := st.encountered }, none) := by
  unfold syncImage
  rw [hst]
  dsimp only
  rw [hp]

/-- Unfolding of one Synchronizer crop step whose record links to the
original frame `op`: the original's record is merged and saved, then the
crop's own record is rewritten. -/
theorem syncImage_some_path (cn ip op : String) (st : SyncState) (m : MetaRecord)
    (hst : st.store ip = some m) (hp : m.path = some op) :
    syncImage cn ip st = (syncStepState st cn ip op m, none) := by
  unfold syncImage syncStepState mergedOrig
  rw [hst]
  dsimp only
  rw [hp]
  dsimp only
  unfold origBase
  by_cases henc : op ∈ st.encountered
  · simp only [henc, not_true, if_false, if_true, ite_true, ite_false]
    simp only [appendNew, List.foldl]
    by_cases hcn : cn ∈ ((st.store op).getD (defaultMetadata op)).characters
    · simp only [hcn, if_true, ite_true]
    · simp only [hcn, if_false, ite_false]
  · simp only [henc, not_false_iff, if_true, ite_true, ite_false]
    simp only [appendNew, List.foldl]
    simp only [List.not_mem_nil, if_false, List.nil_append, ite_false]

theorem namesFor_cons_target (store0 : Store) (F cn ip : String)
    (rest : List (String × String)) (m : MetaRecord)
    (hm : store0 ip = some m) (hp : m.path = some F) :
    namesFor store0 F ((cn, ip) :: rest) = cn :: namesFor store0 F rest := by
  unfold namesFor
  rw [List.filterMap_cons]
  dsimp only
  rw [hm]
  dsimp only
  rw [hp, if_pos rfl]

theorem namesFor_cons_skip (store0 : Store) (F cn ip : String)
    (rest : List (String × String))
    (h : ∀ m, store0 ip = some m → m.path ≠ some F) :
    namesFor store0 F ((cn, ip) :: rest) = namesFor store0 F rest := by
  unfold namesFor
  rw [List.filterMap_cons]
  dsimp only
  match hm : store0 ip with
  | none => rfl
  | some m =>
    dsimp only
    rw [if_neg (h m hm)]

theorem namesFor_eq_nil (store0 : Store) (F : String) (evs : List (String × String))
    (h : ∀ ev ∈ evs, ∀ m, store0 ev.2 = some m → m.path ≠ some F) :
    namesFor store0 F evs = [] := by
  induction evs with
  | nil => rfl
  | cons ev rest ih =>
    obtain ⟨cn, ip⟩ := ev
    rw [namesFor_cons_skip store0 F cn ip rest (h (cn, ip) (List.mem_cons_self _ _))]
    exact ih (fun e he => h e (List.mem_cons_of_mem _ he))

theorem mergedAll_congr (st : SyncState) (store0 : Store) (F : String)
    (evs evs' : List (String × String))
    (h : namesFor store0 F evs = namesFor store0 F evs') :
    mergedAll st store0 F evs = mergedAll st store0 F evs' := by
  unfold mergedAll
  rw [h]

/-- Characterization of a Synchronizer segment over crop pairs `evs` from
state `st`, under the run's well-formedness side conditions: the segment
completes without raising; an original frame `F` that is not itself a
crop path is untouched when no crop links to it and otherwise holds
exactly the merged record `mergedAll`; and every crop record ends up as
its initial record with `characters` overwritten to the folder-derived
singleton. -/
theorem syncRun_char (store0 : Store) :
    ∀ (evs : List (String × String)) (st : SyncState),
    (∀ ev ∈ evs, st.store ev.2 = store0 ev.2) →
    (∀ ev ∈ evs, (store0 ev.2).isSome = true) →
    (∀ ev ∈ evs, ∀ ev' ∈ evs, (store0 ev.2).bind MetaRecord.path ≠ some ev'.2) →
    (evs.map Prod.snd).Nodup →
    ∃ st',
      runList syncCrop evs st = (st', none)
      ∧ (∀ F, F ∉ evs.map Prod.snd →
          (namesFor store0 F evs = [] →
            st'.store F = st.store F ∧ (F ∈ st'.encountered ↔ F ∈ st.encountered))
          ∧ (namesFor store0 F evs ≠ [] →
            F ∈ st'.encountered ∧ st'.store F = some (mergedAll st store0 F evs)))
      ∧ (∀ ev ∈ evs, ∃ m, store0 ev.2 = some m
          ∧ st'.store ev.2 = some { m with characters := [ev.1] }) := by
  intro evs
  induction evs with
  | nil =>
    intro st _ _ _ _
    refine ⟨st, rfl, ?_, ?_⟩
    · intro F _
      refine ⟨fun _ => ⟨rfl, Iff.rfl⟩, fun hne => absurd rfl hne⟩
    · intro ev hev
      exact absurd hev (List.not_mem_nil ev)
  | cons ev0 rest ih =>
    obtain ⟨cn, ip⟩ := ev0
    intro st Hstable Hex Hdisj Hnd
    have hmem : ((cn, ip) : String × String) ∈ (cn, ip) :: rest := List.mem_cons_self _ _
    obtain ⟨m, hm⟩ : ∃ m, store0 ip = some m := by
      have hip_some := Hex _ hmem
      match hms : store0 ip with
      | some m => exact ⟨m, rfl⟩
      | none =>
        change (store0 ip).isSome = true at hip_some
        rw [hms] at hip_some
        simp at hip_some
    have hst_ip : st.store ip = some m := by
      have := Hstable _ hmem
      change st.store ip = store0 ip at this
      rw [this, hm]
    have hnd_ip : ip ∉ rest.map Prod.snd := by
      simp only [List.map_cons, List.nodup_cons] at Hnd
      exact Hnd.1
    have Hnd' : (rest.map Prod.snd).Nodup := by
      simp only [List.map_cons, List.nodup_cons] at Hnd
      exact Hnd.2
    have Hex' : ∀ e ∈ rest, (store0 e.2).isSome = true :=
      fun e he => Hex e (List.mem_cons_of_mem _ he)
    have Hdisj' : ∀ e ∈ rest, ∀ e' ∈ rest, (store0 e.2).bind MetaRecord.path ≠ some e'.2 :=
      fun e he e' he' =>
        Hdisj e (List.mem_cons_of_mem _ he) e' (List.mem_cons_of_mem _ he')
    have hip_norest : namesFor store0 ip rest = [] := by
      apply namesFor_eq_nil
      intro e he m' hm' hp'
      have hd := Hdisj e (List.mem_cons_of_mem _ he) (cn, ip) hmem
      rw [hm'] at hd
      exact hd hp'
    cases hpath : m.path with
    | none =>
      have hstep := syncImage_no_path cn ip st m hst_ip hpath
      obtain ⟨st1, hst1⟩ : ∃ st1 : SyncState,
          st1 = { store := upd st.store ip { m with characters := [cn] },
                  encountered := st.encountered } := ⟨_, rfl⟩
      have hrun : runList syncCrop ((cn, ip) :: rest) st = runList syncCrop rest st1 := by
        rw [runList]
        unfold syncCrop
        dsimp only
        rw [hstep]
        dsimp only
        rw [hst1]
      have Hstable' : ∀ e ∈ rest, st1.store e.2 = store0 e.2 := by
        intro e he
        have hne : e.2 ≠ ip := fun hcontra => hnd_ip (hcontra ▸ List.mem_map_of_mem Prod.snd he)
        rw [hst1]
        show upd st.store ip _ e.2 = _
        rw [upd_ne _ _ _ _ hne]
        exact Hstable e (List.mem_cons_of_mem _ he)
      obtain ⟨st', hrun', hFcl, hcrop⟩ := ih st1 Hstable' Hex' Hdisj' Hnd'
      refine ⟨st', by rw [hrun, hrun'], ?_, ?_⟩
      · intro F hF
        have hFip : F ≠ ip ∧ F ∉ rest.map Prod.snd := by
          simp only [List.map_cons, List.mem_cons] at hF
          push_neg at hF
          exact hF
        have hskip : namesFor store0 F ((cn, ip) :: rest) = namesFor store0 F rest := by
          apply namesFor_cons_skip
          intro m' hm'
          have hmm : m = m' := by
            have h2 := hm.symm.trans hm'
            injection h2
          rw [← hmm, hpath]
          simp
        rw [hskip]
        obtain ⟨hFe, hFne⟩ := hFcl F hFip.2
        have hsF1 : st1.store F = st.store F := by
          rw [hst1]
          show upd st.store ip _ F = st.store F
          exact upd_ne _ _ _ _ hFip.1
        have heF1 : st1.encountered = st.encountered := by rw [hst1]
        constructor
        · intro hnil
          obtain ⟨hsf, hef⟩ := hFe hnil
          refine ⟨hsf.trans hsF1, ?_⟩
          rw [heF1] at hef
          exact hef
        · intro hne
          obtain ⟨henc', hsf⟩ := hFne hne
          refine ⟨henc', ?_⟩
          rw [hsf]
          have hma : mergedAll st1 store0 F rest = mergedAll st store0 F rest := by
            unfold mergedAll origBase
            rw [hsF1, heF1]
          rw [hma]
          exact congrArg some (mergedAll_congr st store0 F rest ((cn, ip) :: rest) hskip.symm)
      · intro e he
        rcases List.mem_cons.mp he with heq | hetail
        · refine ⟨m, ?_, ?_⟩
          · rw [heq]
            exact hm
          · rw [heq]
            obtain ⟨hsf, -⟩ := (hFcl ip hnd_ip).1 hip_norest
            rw [hsf, hst1]
            show upd st.store ip _ ip = _
            rw [upd_self]
        · exact hcrop e hetail
    | some op =>
      have hop_ne : ∀ e' ∈ (cn, ip) :: rest, op ≠ e'.2 := by
        intro e' he' heq
        have hd := Hdisj (cn, ip) hmem e' he'
        rw [hm] at hd
        apply hd
        show m.path = some e'.2
        rw [hpath, heq]
      have hop_ip : op ≠ ip := hop_ne (cn, ip) hmem
      have hop_rest : op ∉ rest.map Prod.snd := by
        intro hmm'
        obtain ⟨e', he', heq⟩ := List.mem_map.mp hmm'
        exact hop_ne e' (List.mem_cons_of_mem _ he') heq.symm
      have hstep := syncImage_some_path cn ip op st m hst_ip hpath
      obtain ⟨st1, hst1⟩ : ∃ st1 : SyncState, st1 = syncStepState st cn ip op m := ⟨_, rfl⟩
      have hrun : runList syncCrop ((cn, ip) :: rest) st = runList syncCrop rest st1 := by
        rw [runList]
        unfold syncCrop
        dsimp only
        rw [hstep]
        dsimp only
        rw [hst1]
      have hst1_store : ∀ p, p ≠ ip → p ≠ op → st1.store p = st.store p := by
        intro p h1 h2
        rw [hst1]
        show upd (upd st.store op _) ip _ p = st.store p
        rw [upd_ne _ _ _ _ h1, upd_ne _ _ _ _ h2]
      have hst1_op : st1.store op = some (mergedOrig st op cn) := by
        rw [hst1]
        show upd (upd st.store op _) ip _ op = _
        rw [upd_ne _ _ _ _ hop_ip, upd_self]
      have hst1_ip : st1.store ip = some { m with characters := [cn] } := by
        rw [hst1]
        show upd _ ip _ ip = _
        rw [upd_self]
      have hst1_enc_op : op ∈ st1.encountered := by
        rw [hst1]
        show op ∈ (if op ∈ st.encountered then st.encountered else op :: st.encountered)
        by_cases h : op ∈ st.encountered
        · rw [if_pos h]; exact h
        · rw [if_neg h]; exact List.mem_cons_self _ _
      have hst1_enc_other : ∀ F, F ≠ op → (F ∈ st1.encountered ↔ F ∈ st.encountered) := by
        intro F hne
        rw [hst1]
        show F ∈ (if op ∈ st.encountered then st.encountered else op :: st.encountered) ↔ _
        by_cases h : op ∈ st.encountered
        · rw [if_pos h]
        · rw [if_neg h]
          constructor
          · intro hmem'
            rcases List.mem_cons.mp hmem' with h1 | h1
            · exact absurd h1 hne
            · exact h1
          · exact fun h1 => List.mem_cons_of_mem _ h1
      have Hstable' : ∀ e ∈ rest, st1.store e.2 = store0 e.2 := by
        intro e he
        have hne1 : e.2 ≠ ip := fun hc => hnd_ip (hc ▸ List.mem_map_of_mem Prod.snd he)
        have hne2 : e.2 ≠ op := by
          intro hc
          exact hop_ne e (List.mem_cons_of_mem _ he) hc.symm
        rw [hst1_store _ hne1 hne2]
        exact Hstable e (List.mem_cons_of_mem _ he)
      obtain ⟨st', hrun', hFcl, hcrop⟩ := ih st1 Hstable' Hex' Hdisj' Hnd'
      refine ⟨st', by rw [hrun, hrun'], ?_, ?_⟩
      · intro F hF
        have hFsplit : F ≠ ip ∧ F ∉ rest.map Prod.snd := by
          simp only [List.map_cons, List.mem_cons] at hF
          push_neg at hF
          exact hF
        by_cases hFop : F = op
        · subst hFop
          have hcons : namesFor store0 F ((cn, ip) :: rest) = cn :: namesFor store0 F rest :=
            namesFor_cons_target store0 F cn ip rest m hm hpath
          constructor
          · intro hnil
            rw [hcons] at hnil
            exact absurd hnil (List.cons_ne_nil _ _)
          · intro _
            obtain ⟨hFe, hFne⟩ := hFcl F hFsplit.2
            by_cases hrest : namesFor store0 F rest = []
            · obtain ⟨hsf, hef⟩ := hFe hrest
              refine ⟨hef.mpr hst1_enc_op, ?_⟩
              rw [hsf, hst1_op]
              refine congrArg some ?_
              unfold mergedOrig mergedAll dedupAppend
              rw [hcons, hrest]
              by_cases h : F ∈ st.encountered <;> simp [h]
            · obtain ⟨henc', hsf⟩ := hFne hrest
              refine ⟨henc', ?_⟩
              rw [hsf]
              refine congrArg some ?_
              unfold mergedAll origBase
              rw [hst1_op]
              rw [if_pos ((hst1_enc_op : F ∈ st1.encountered))]
              rw [hcons]
              unfold mergedOrig origBase
              simp only [Option.getD_some]
              by_cases h : F ∈ st.encountered
              · rw [if_pos h, if_pos h]
                rfl
              · rw [if_neg h, if_neg h]
                rfl
        · have hskip : namesFor store0 F ((cn, ip) :: rest) = namesFor store0 F rest := by
            apply namesFor_cons_skip
            intro m' hm'
            have h2 := hm.symm.trans hm'
            injection h2 with h3
            rw [← h3, hpath]
            intro hc
            injection hc with hc2
            exact hFop hc2.symm
          rw [hskip]
          obtain ⟨hFe, hFne⟩ := hFcl F hFsplit.2
          have hsF1 : st1.store F = st.store F := hst1_store F hFsplit.1 hFop
          have hencF : F ∈ st1.encountered ↔ F ∈ st.encountered := hst1_enc_other F hFop
          constructor
          · intro hnil
            obtain ⟨hsf, hef⟩ := hFe hnil
            exact ⟨hsf.trans hsF1, hef.trans hencF⟩
          · intro hne
            obtain ⟨henc', hsf⟩ := hFne hne
            refine ⟨henc', ?_⟩
            rw [hsf]
            refine congrArg some ?_
            have hma : mergedAll st1 store0 F rest = mergedAll st store0 F rest := by
              unfold mergedAll origBase
              rw [hsF1]
              have hif : (if F ∈ st1.encountered
                    then appendNew ((st.store F).getD (defaultMetadata F)).characters (namesFor store0 F rest)
                    else dedupAppend (namesFor store0 F rest))
                  = (if F ∈ st.encountered
                    then appendNew ((st.store F).getD (defaultMetadata F)).characters (namesFor store0 F rest)
                    else dedupAppend (namesFor store0 F rest)) :=
                if_congr hencF rfl rfl
              rw [hif]
            rw [hma]
            exact mergedAll_congr st store0 F rest ((cn, ip) :: rest) hskip.symm
      · intro e he
        rcases List.mem_cons.mp he with heq | hetail
        · refine ⟨m, ?_, ?_⟩
          · rw [heq]
            exact hm
          · rw [heq]
            obtain ⟨hsf, -⟩ := (hFcl ip hnd_ip).1 hip_norest
            rw [hsf, hst1_ip]
        · exact hcrop e hetail

/-- Membership in the append-if-absent fold. -/
theorem mem_appendNew (c : String) :
    ∀ (ns acc : List String), c ∈ appendNew acc ns ↔ c ∈ acc ∨ c ∈ ns := by
  intro ns
  induction ns with
  | nil =>
    intro acc
    rw [appendNew_nil]
    simp
  | cons n ns ih =>
    intro acc
    rw [appendNew_cons, ih]
    by_cases h : n ∈ acc
    · rw [if_pos h]
      constructor
      · rintro (h1 | h1)
        · exact Or.inl h1
        · exact Or.inr (List.mem_cons_of_mem _ h1)
      · rintro (h1 | h1)
        · exact Or.inl h1
        · rcases List.mem_cons.mp h1 with h2 | h2
          · exact Or.inl (h2 ▸ h)
          · exact Or.inr h2
    · rw [if_neg h]
      constructor
      · rintro (h1 | h1)
        · rcases List.mem_append.mp h1 with h2 | h2
          · exact Or.inl h2
          · simp at h2
            exact Or.inr (h2 ▸ List.mem_cons_self _ _)
        · exact Or.inr (List.mem_cons_of_mem _ h1)
      · rintro (h1 | h1)
        · exact Or.inl (List.mem_append.mpr (Or.inl h1))
        · rcases List.mem_cons.mp h1 with h2 | h2
          · exact Or.inl (List.mem_append.mpr (Or.inr (by simp [h2])))
          · exact Or.inr h2

/-- Membership in the deduplicated insertion-ordered list is membership
in the underlying name list. -/
theorem mem_dedupAppend (c : String) (ns : List String) :
    c ∈ dedupAppend ns ↔ c ∈ ns := by
  unfold dedupAppend
  rw [mem_appendNew]
  simp

/-- `namesFor` only depends on the `path` fields the store gives the
crops of the run. -/
theorem namesFor_ext (store0 store1 : Store) (F : String)
    (evs : List (String × String))
    (h : ∀ ev ∈ evs, ∃ m m', store0 ev.2 = some m ∧ store1 ev.2 = some m' ∧ m'.path = m.path) :
    namesFor store1 F evs = namesFor store0 F evs := by
  induction evs with
  | nil => rfl
  | cons ev rest ih =>
    obtain ⟨cn, ip⟩ := ev
    obtain ⟨m, m', hm, hm', hp⟩ := h (cn, ip) (List.mem_cons_self _ _)
    have htail := ih (fun e he => h e (List.mem_cons_of_mem _ he))
    by_cases hc : m.path = some F
    · rw [namesFor_cons_target store0 F cn ip rest m hm hc,
          namesFor_cons_target store1 F cn ip rest m' hm' (hp.trans hc), htail]
    · rw [namesFor_cons_skip store0 F cn ip rest, namesFor_cons_skip store1 F cn ip rest, htail]
      · intro mm hmm
        have h2 := hm'.symm.trans hmm
        injection h2 with h3
        rw [← h3, hp]
        exact hc
      · intro mm hmm
        have h2 := hm.symm.trans hmm
        injection h2 with h3
        rw [← h3]
        exact hc

/-! ### C1 — label reset-once and merge (P1) -/

/-- C1 amended: after a Synchronizer run over well-formed inputs (every
crop has a record, no original-frame path is itself a crop path, crop
paths are distinct), every original frame `F` linked by at least one
processed crop holds exactly the deduplicated, insertion-ordered list of
the names derived this run — any character from a previous run that is
not re-derived is gone — and processing the crop folders in any other
order yields a `characters` list with exactly the same members (the
members are order-independent; the order within the list follows the
processing order, so the list itself is not). -/
theorem c1_label_sync (cropDir : String) (entries entries' : List CropEntry)
    (store0 : Store) (F : String)
    (hperm : entries.Perm entries')
    (Hex : ∀ ev ∈ flatCrops cropDir entries, (store0 ev.2).isSome = true)
    (Hdisj : ∀ ev ∈ flatCrops cropDir entries, ∀ ev' ∈ flatCrops cropDir entries,
      (store0 ev.2).bind MetaRecord.path ≠ some ev'.2)
    (Hnd : ((flatCrops cropDir entries).map Prod.snd).Nodup)
    (hF : F ∉ (flatCrops cropDir entries).map Prod.snd)
    (hhit : namesFor store0 F (flatCrops cropDir entries) ≠ []) :
    (save_characters_to_meta cropDir entries store0).2 = none
    ∧ (save_characters_to_meta cropDir entries store0).1.store F
        = some { origBase store0 F with
                 characters := dedupAppend (namesFor store0 F (flatCrops cropDir entries)) }
    ∧ (save_characters_to_meta cropDir entries' store0).2 = none
    ∧ (save_characters_to_meta cropDir entries' store0).1.store F
        = some { origBase store0 F with
                 characters := dedupAppend (namesFor store0 F (flatCrops cropDir entries')) }
    ∧ (∀ c, c ∈ dedupAppend (namesFor store0 F (flatCrops cropDir entries))
        ↔ c ∈ dedupAppend (namesFor store0 F (flatCrops cropDir entries'))) := by
  have hflatperm : (flatCrops cropDir entries).Perm (flatCrops cropDir entries') :=
    List.Perm.flatMap_right (entryCrops cropDir) hperm
  have hmemiff : ∀ ev, ev ∈ flatCrops cropDir entries ↔ ev ∈ flatCrops cropDir entries' :=
    fun ev => hflatperm.mem_iff
  have Hex2 : ∀ ev ∈ flatCrops cropDir entries', (store0 ev.2).isSome = true :=
    fun ev he => Hex ev ((hmemiff ev).mpr he)
  have Hdisj2 : ∀ ev ∈ flatCrops cropDir entries', ∀ ev' ∈ flatCrops cropDir entries',
      (store0 ev.2).bind MetaRecord.path ≠ some ev'.2 :=
    fun ev he ev' he' => Hdisj ev ((hmemiff ev).mpr he) ev' ((hmemiff ev').mpr he')
  have Hnd2 : ((flatCrops cropDir entries').map Prod.snd).Nodup :=
    ((hflatperm.map Prod.snd).nodup_iff).mp Hnd
  have hF2 : F ∉ (flatCrops cropDir entries').map Prod.snd :=
    fun hmem => hF ((hflatperm.map Prod.snd).mem_iff.mpr hmem)
  have hnamesperm : (namesFor store0 F (flatCrops cropDir entries)).Perm
      (namesFor store0 F (flatCrops cropDir entries')) := by
    unfold namesFor
    exact List.Perm.filterMap _ hflatperm
  have hhit2 : namesFor store0 F (flatCrops cropDir entries') ≠ [] := by
    intro h
    apply hhit
    have := hnamesperm.length_eq
    rw [h] at this
    exact List.length_eq_zero.mp this
  have runChar : ∀ (es : List CropEntry),
      (∀ ev ∈ flatCrops cropDir es, (store0 ev.2).isSome = true) →
      (∀ ev ∈ flatCrops cropDir es, ∀ ev' ∈ flatCrops cropDir es,
        (store0 ev.2).bind MetaRecord.path ≠ some ev'.2) →
      ((flatCrops cropDir es).map Prod.snd).Nodup →
      F ∉ (flatCrops cropDir es).map Prod.snd →
      namesFor store0 F (flatCrops cropDir es) ≠ [] →
      (save_characters_to_meta cropDir es store0).2 = none
      ∧ (save_characters_to_meta cropDir es store0).1.store F
          = some { origBase store0 F with
                   characters := dedupAppend (namesFor store0 F (flatCrops cropDir es)) } := by
    intro es hex hdisj hnd hf hh
    obtain ⟨st', hrun, hFcl, -⟩ := syncRun_char store0 (flatCrops cropDir es)
      { store := store0, encountered := [] } (fun _ _ => rfl) hex hdisj hnd
    have hsync := sync_flat cropDir es store0
    obtain ⟨henc', hsf⟩ := (hFcl F hf).2 hh
    constructor
    · rw [hsync, hrun]
    · rw [hsync, hrun]
      dsimp only
      rw [hsf]
      refine congrArg some ?_
      unfold mergedAll origBase
      rw [if_neg (List.not_mem_nil F)]
  obtain ⟨h1, h2⟩ := runChar entries Hex Hdisj Hnd hF hhit
  obtain ⟨h3, h4⟩ := runChar entries' Hex2 Hdisj2 Hnd2 hF2 hhit2
  refine ⟨h1, h2, h3, h4, ?_⟩
  intro c
  rw [mem_dedupAppend, mem_dedupAppend]
  exact hnamesperm.mem_iff

/-- Counterexample for C1 as stated: two crop folders `0_a`, `0_b` both
linking to original frame `F`, processed in the two possible orders,
leave `F` with the lists `["a", "b"]` and `["b", "a"]` — the final list
is not independent of the processing order (only its membership is). -/
theorem c1_counterexample :
    (save_characters_to_meta "crops"
      [⟨"0_a", true, ["i1.png"]⟩, ⟨"0_b", true, ["i2.png"]⟩]
      (fun p => if p = "crops/0_a/i1.png" then some ⟨some "F", "i1.png", []⟩
        else if p = "crops/0_b/i2.png" then some ⟨some "F", "i2.png", []⟩
        else none)).1.store "F" = some ⟨none, "F", ["a", "b"]⟩
    ∧ (save_characters_to_meta "crops"
      [⟨"0_b", true, ["i2.png"]⟩, ⟨"0_a", true, ["i1.png"]⟩]
      (fun p => if p = "crops/0_a/i1.png" then some ⟨some "F", "i1.png", []⟩
        else if p = "crops/0_b/i2.png" then some ⟨some "F", "i2.png", []⟩
        else none)).1.store "F" = some ⟨none, "F", ["b", "a"]⟩
    ∧ (["a", "b"] : List String) ≠ ["b", "a"] := by
  refine ⟨rfl, rfl, by decide⟩

/-- Witness for C1's amended statement at the same two-folder
configuration. -/
theorem c1_label_sync_witness :
    (save_characters_to_meta "crops"
      [⟨"0_a", true, ["i1.png"]⟩, ⟨"0_b", true, ["i2.png"]⟩]
      (fun p => if p = "crops/0_a/i1.png" then some ⟨some "F", "i1.png", []⟩
        else if p = "crops/0_b/i2.png" then some ⟨some "F", "i2.png", []⟩
        else none)).2 = none
    ∧ (save_characters_to_meta "crops"
      [⟨"0_a", true, ["i1.png"]⟩, ⟨"0_b", true, ["i2.png"]⟩]
      (fun p => if p = "crops/0_a/i1.png" then some ⟨some "F", "i1.png", []⟩
        else if p = "crops/0_b/i2.png" then some ⟨some "F", "i2.png", []⟩
        else none)).1.store "F"
        = some { origBase (fun p => if p = "crops/0_a/i1.png" then some ⟨some "F", "i1.png", []⟩
            else if p = "crops/0_b/i2.png" then some ⟨some "F", "i2.png", []⟩
            else none) "F" with
            characters := dedupAppend (namesFor (fun p => if p = "crops/0_a/i1.png" then some ⟨some "F", "i1.png", []⟩
              else if p = "crops/0_b/i2.png" then some ⟨some "F", "i2.png", []⟩
              else none) "F" (flatCrops "crops" [⟨"0_a", true, ["i1.png"]⟩, ⟨"0_b", true, ["i2.png"]⟩])) }
    ∧ (save_characters_to_meta "crops"
      [⟨"0_b", true, ["i2.png"]⟩, ⟨"0_a", true, ["i1.png"]⟩]
      (fun p => if p = "crops/0_a/i1.png" then some ⟨some "F", "i1.png", []⟩
        else if p = "crops/0_b/i2.png" then some ⟨some "F", "i2.png", []⟩
        else none)).2 = none
    ∧ (save_characters_to_meta "crops"
      [⟨"0_b", true, ["i2.png"]⟩, ⟨"0_a", true, ["i1.png"]⟩]
      (fun p => if p = "crops/0_a/i1.png" then some ⟨some "F", "i1.png", []⟩
        else if p = "crops/0_b/i2.png" then some ⟨some "F", "i2.png", []⟩
        else none)).1.store "F"
        = some { origBase (fun p => if p = "crops/0_a/i1.png" then some ⟨some "F", "i1.png", []⟩
            else if p = "crops/0_b/i2.png" then some ⟨some "F", "i2.png", []⟩
            else none) "F" with
            characters := dedupAppend (namesFor (fun p => if p = "crops/0_a/i1.png" then some ⟨some "F", "i1.png", []⟩
              else if p = "crops/0_b/i2.png" then some ⟨some "F", "i2.png", []⟩
              else none) "F" (flatCrops "crops" [⟨"0_b", true, ["i2.png"]⟩, ⟨"0_a", true, ["i1.png"]⟩])) }
    ∧ (∀ c, c ∈ dedupAppend (namesFor (fun p => if p = "crops/0_a/i1.png" then some ⟨some "F", "i1.png", []⟩
          else if p = "crops/0_b/i2.png" then some ⟨some "F", "i2.png", []⟩
          else none) "F" (flatCrops "crops" [⟨"0_a", true, ["i1.png"]⟩, ⟨"0_b", true, ["i2.png"]⟩]))
        ↔ c ∈ dedupAppend (namesFor (fun p => if p = "crops/0_a/i1.png" then some ⟨some "F", "i1.png", []⟩
          else if p = "crops/0_b/i2.png" then some ⟨some "F", "i2.png", []⟩
          else none) "F" (flatCrops "crops" [⟨"0_b", true, ["i2.png"]⟩, ⟨"0_a", true, ["i1.png"]⟩]))) :=
  c1_label_sync "crops"
    [⟨"0_a", true, ["i1.png"]⟩, ⟨"0_b", true, ["i2.png"]⟩]
    [⟨"0_b", true, ["i2.png"]⟩, ⟨"0_a", true, ["i1.png"]⟩]
    (fun p => if p = "crops/0_a/i1.png" then some ⟨some "F", "i1.png", []⟩
      else if p = "crops/0_b/i2.png" then some ⟨some "F", "i2.png", []⟩
      else none)
    "F" (List.Perm.swap _ _ _) (by decide) (by decide) (by decide) (by decide) (by decide)

/-! ### C3 — idempotence of the Synchronizer (P2) -/

/-- C3: over well-formed inputs, running the Synchronizer twice in
succession on an unchanged crop tree leaves the metadata store exactly as
after one run — every record (crop and original-frame alike) is
unchanged by the second run, and the second run raises nothing. -/
theorem c3_sync_idempotent (cropDir : String) (entries : List CropEntry) (store0 : Store)
    (Hex : ∀ ev ∈ flatCrops cropDir entries, (store0 ev.2).isSome = true)
    (Hdisj : ∀ ev ∈ flatCrops cropDir entries, ∀ ev' ∈ flatCrops cropDir entries,
      (store0 ev.2).bind MetaRecord.path ≠ some ev'.2)
    (Hnd : ((flatCrops cropDir entries).map Prod.snd).Nodup) :
    (save_characters_to_meta cropDir entries store0).2 = none
    ∧ (save_characters_to_meta cropDir entries
        (save_characters_to_meta cropDir entries store0).1.store).2 = none
    ∧ ∀ p, (save_characters_to_meta cropDir entries
        (save_characters_to_meta cropDir entries store0).1.store).1.store p
        = (save_characters_to_meta cropDir entries store0).1.store p := by
  obtain ⟨st1, hrun1, hFcl1, hcrop1⟩ := syncRun_char store0 (flatCrops cropDir entries)
    { store := store0, encountered := [] } (fun _ _ => rfl) Hex Hdisj Hnd
  have hsync1 : save_characters_to_meta cropDir entries store0 = (st1, none) := by
    rw [sync_flat cropDir entries store0, hrun1]
  have hlink : ∀ ev ∈ flatCrops cropDir entries,
      ∃ m m', store0 ev.2 = some m ∧ st1.store ev.2 = some m' ∧ m'.path = m.path := by
    intro ev he
    obtain ⟨m, hm, hs⟩ := hcrop1 ev he
    exact ⟨m, { m with characters := [ev.1] }, hm, hs, rfl⟩
  have Hex2 : ∀ ev ∈ flatCrops cropDir entries, (st1.store ev.2).isSome = true := by
    intro ev he
    obtain ⟨m, -, hs⟩ := hcrop1 ev he
    rw [hs]
    rfl
  have Hdisj2 : ∀ ev ∈ flatCrops cropDir entries, ∀ ev' ∈ flatCrops cropDir entries,
      (st1.store ev.2).bind MetaRecord.path ≠ some ev'.2 := by
    intro ev he ev' he'
    obtain ⟨m, hm, hs⟩ := hcrop1 ev he
    rw [hs]
    have hd := Hdisj ev he ev' he'
    rw [hm] at hd
    exact hd
  obtain ⟨st2, hrun2, hFcl2, hcrop2⟩ := syncRun_char st1.store (flatCrops cropDir entries)
    { store := st1.store, encountered := [] } (fun _ _ => rfl) Hex2 Hdisj2 Hnd
  have hsync2 : save_characters_to_meta cropDir entries st1.store = (st2, none) := by
    rw [sync_flat, hrun2]
  have hnames : ∀ F, namesFor st1.store F (flatCrops cropDir entries)
      = namesFor store0 F (flatCrops cropDir entries) :=
    fun F => namesFor_ext store0 st1.store F _ hlink
  refine ⟨by rw [hsync1], ?_, ?_⟩
  · rw [hsync1]
    dsimp only
    rw [hsync2]
  · intro p
    rw [hsync1]
    dsimp only
    rw [hsync2]
    dsimp only
    by_cases hp : p ∈ (flatCrops cropDir entries).map Prod.snd
    · obtain ⟨ev, hev, hevp⟩ := List.mem_map.mp hp
      subst hevp
      obtain ⟨m1, hm1, hs1⟩ := hcrop1 ev hev
      obtain ⟨m2, hm2, hs2⟩ := hcrop2 ev hev
      have hm12 : m2 = { m1 with characters := [ev.1] } := by
        have h2 := hs1.symm.trans hm2
        injection h2 with h3
        exact h3.symm
      rw [hs2, hm12, hs1]
    · by_cases hn : namesFor store0 p (flatCrops cropDir entries) = []
      · obtain ⟨hsp1, -⟩ := (hFcl1 p hp).1 hn
        obtain ⟨hsp2, -⟩ := (hFcl2 p hp).1 (by rw [hnames p]; exact hn)
        exact hsp2
      · obtain ⟨-, hsp1⟩ := (hFcl1 p hp).2 hn
        obtain ⟨-, hsp2⟩ := (hFcl2 p hp).2 (by rw [hnames p]; exact hn)
        rw [hsp2, hsp1]
        refine congrArg some ?_
        unfold mergedAll origBase
        rw [if_neg (List.not_mem_nil p), if_neg (List.not_mem_nil p)]
        rw [hnames p]
        rw [hsp1]
        simp only [Option.getD_some]
        rfl

/-- Witness for C3 at the two-folder configuration, with the store
equality instantiated at the original frame `"F"`. -/
theorem c3_sync_idempotent_witness :
    (save_characters_to_meta "crops"
      [⟨"0_a", true, ["i1.png"]⟩, ⟨"0_b", true, ["i2.png"]⟩]
      (fun p => if p = "crops/0_a/i1.png" then some ⟨some "F", "i1.png", []⟩
        else if p = "crops/0_b/i2.png" then some ⟨some "F", "i2.png", []⟩
        else none)).2 = none
    ∧ (save_characters_to_meta "crops"
      [⟨"0_a", true, ["i1.png"]⟩, ⟨"0_b", true, ["i2.png"]⟩]
      (save_characters_to_meta "crops"
        [⟨"0_a", true, ["i1.png"]⟩, ⟨"0_b", true, ["i2.png"]⟩]
        (fun p => if p = "crops/0_a/i1.png" then some ⟨some "F", "i1.png", []⟩
          else if p = "crops/0_b/i2.png" then some ⟨some "F", "i2.png", []⟩
          else none)).1.store).2 = none
    ∧ (save_characters_to_meta "crops"
      [⟨"0_a", true, ["i1.png"]⟩, ⟨"0_b", true, ["i2.png"]⟩]
      (save_characters_to_meta "crops"
        [⟨"0_a", true, ["i1.png"]⟩, ⟨"0_b", true, ["i2.png"]⟩]
        (fun p => if p = "crops/0_a/i1.png" then some ⟨some "F", "i1.png", []⟩
          else if p = "crops/0_b/i2.png" then some ⟨some "F", "i2.png", []⟩
          else none)).1.store).1.store "F"
      = (save_characters_to_meta "crops"
        [⟨"0_a", true, ["i1.png"]⟩, ⟨"0_b", true, ["i2.png"]⟩]
        (fun p => if p = "crops/0_a/i1.png" then some ⟨some "F", "i1.png", []⟩
          else if p = "crops/0_b/i2.png" then some ⟨some "F", "i2.png", []⟩
          else none)).1.store "F" := by
  have h := c3_sync_idempotent "crops"
    [⟨"0_a", true, ["i1.png"]⟩, ⟨"0_b", true, ["i2.png"]⟩]
    (fun p => if p = "crops/0_a/i1.png" then some ⟨some "F", "i1.png", []⟩
      else if p = "crops/0_b/i2.png" then some ⟨some "F", "i2.png", []⟩
      else none)
    (by decide) (by decide) (by decide)
  exact ⟨h.1, h.2.1, h.2.2 "F"⟩

/-! ### C7 — missing metadata is fatal (amended) -/

/-- C7 amended: a missing metadata record aborts the run at exactly the
three checked sites — (i) a Synchronizer crop whose record is absent at
the moment it is processed stops the whole run with
`MissingMetadataError`, the remaining crops never processed; (ii) an
Export Phase A crop without a record stops Phase A the same way; (iii)
`save_image_and_meta` raises it when the source record is absent —
provided, for a `'.webp'` export, that the encoding step succeeded,
because a failed `'.webp'` encode returns (skipping the item) before the
metadata check ever runs (see the counterexample). -/
theorem c7_missing_metadata_fatal :
    (∀ (cropDir : String) (entries : List CropEntry) (store0 : Store)
        (evpre : List (String × String)) (cn ip : String)
        (evpost : List (String × String)) (st1 : SyncState),
      flatCrops cropDir entries = evpre ++ (cn, ip) :: evpost →
      runList syncCrop evpre { store := store0, encountered := [] } = (st1, none) →
      st1.store ip = none →
      save_characters_to_meta cropDir entries store0 = (st1, some Err.missingMetadata))
    ∧ (∀ (env : Env) (encodeOk : Image → Bool) (max_size : Nat) (ext dst_dir : String)
        (pre : List String) (p : String) (post : List String) (dst0 dst1 : DstState),
      runList (exportCrop env encodeOk max_size ext dst_dir) pre dst0 = (dst1, none) →
      env.metaStore p = none →
      phaseA env encodeOk max_size ext dst_dir (pre ++ p :: post) dst0
        = (dst1, some Err.missingMetadata))
    ∧ (∀ (env : Env) (encodeOk : Image → Bool) (img : Image)
        (img_path save_dir ext : String) (dst : DstState),
      env.metaStore img_path = none →
      (ext = ".webp" → encodeOk img = true) →
      (save_image_and_meta env encodeOk img img_path save_dir ext dst).2
        = some Err.missingMetadata) := by
  refine ⟨?_, ?_, ?_⟩
  · intro cropDir entries store0 evpre cn ip evpost st1 hflat hpre hmiss
    rw [sync_flat, hflat, runList_append_ok _ _ _ _ _ hpre, runList]
    unfold syncCrop
    dsimp only
    unfold syncImage
    rw [hmiss]
  · intro env encodeOk max_size ext dst_dir pre p post dst0 dst1 hpre hmiss
    unfold phaseA
    rw [runList_append_ok _ _ _ _ _ hpre, runList]
    unfold exportCrop
    rw [hmiss]
  · intro env encodeOk img img_path save_dir ext dst hmiss henc
    by_cases hw : ext = ".webp"
    · have he := henc hw
      simp only [save_image_and_meta, hw, he, hmiss, if_true]
    · by_cases he : encodeOk img = true
      · simp only [save_image_and_meta, hw, he, hmiss, if_true, if_false, if_neg]
      · have he' : encodeOk img = false := by
          cases hb : encodeOk img
          · rfl
          · exact absurd hb he
        simp only [save_image_and_meta, hw, he', hmiss, Bool.false_eq_true, if_true,
          if_false, if_neg]

/-- Witness for C7's amended statement: each of the three abort sites
fired on a one-item concrete run with an empty metadata store. -/
theorem c7_missing_metadata_fatal_witness :
    save_characters_to_meta "crops" [⟨"0_a", true, ["i1.png"]⟩] (fun _ => none)
      = ({ store := fun _ => none, encountered := [] }, some Err.missingMetadata)
    ∧ phaseA ⟨fun _ => none, fun _ => none⟩ (fun _ => true) 100 ".webp" "out"
        (([] : List String) ++ "c/i.png" :: []) ⟨fun _ => none, fun _ => none, []⟩
      = (⟨fun _ => none, fun _ => none, []⟩, some Err.missingMetadata)
    ∧ (save_image_and_meta ⟨fun _ => none, fun _ => none⟩ (fun _ => true)
        ⟨1, 1, 3, fun _ _ _ => 0⟩ "c/i.png" "out" ".webp"
        ⟨fun _ => none, fun _ => none, []⟩).2 = some Err.missingMetadata := by
  refine ⟨?_, ?_, ?_⟩
  · exact c7_missing_metadata_fatal.1 "crops" [⟨"0_a", true, ["i1.png"]⟩] (fun _ => none)
      [] "a" "crops/0_a/i1.png" [] { store := fun _ => none, encountered := [] }
      (by rfl) rfl rfl
  · exact c7_missing_metadata_fatal.2.1 ⟨fun _ => none, fun _ => none⟩ (fun _ => true)
      100 ".webp" "out" [] "c/i.png" [] ⟨fun _ => none, fun _ => none, []⟩
      ⟨fun _ => none, fun _ => none, []⟩ rfl rfl
  · exact c7_missing_metadata_fatal.2.2 ⟨fun _ => none, fun _ => none⟩ (fun _ => true)
      ⟨1, 1, 3, fun _ _ _ => 0⟩ "c/i.png" "out" ".webp" ⟨fun _ => none, fun _ => none, []⟩
      rfl (fun _ => rfl)

/-- Counterexample for C7 as stated: an image entering
`save_image_and_meta` with a `'.webp'` extension whose encoding fails and
whose metadata record is missing does not raise — the single item is
skipped (nothing written to the destination) and the batch continues,
because the encode-failure return precedes the metadata check. -/
theorem c7_counterexample :
    (save_image_and_meta ⟨fun _ => none, fun _ => none⟩ (fun _ => false)
      ⟨1, 1, 3, fun _ _ _ => 0⟩ "src/i.png" "out" ".webp"
      ⟨fun _ => none, fun _ => none, []⟩).2 = none
    ∧ (save_image_and_meta ⟨fun _ => none, fun _ => none⟩ (fun _ => false)
      ⟨1, 1, 3, fun _ _ _ => 0⟩ "src/i.png" "out" ".webp"
      ⟨fun _ => none, fun _ => none, []⟩).1.metas
        (pathJoin "out" (metaFilename "src/i.png")) = none
    ∧ (save_image_and_meta ⟨fun _ => none, fun _ => none⟩ (fun _ => false)
      ⟨1, 1, 3, fun _ _ _ => 0⟩ "src/i.png" "out" ".webp"
      ⟨fun _ => none, fun _ => none, []⟩).1.files
        (pathJoin "out" ((splitext (basename "src/i.png")).1 ++ ".webp")) = none :=
  ⟨rfl, rfl, rfl⟩
